import Mathlib

/-!
Verification development for the `open_spiel` checkers/2048 hybrid state
machine (`src/open_spiel/games/2048.h`) and the kalah sowing game (whose
in-repository evidence is `src/open_spiel/games/kalah_test.cc`).

The header `2048.h` declares class `TwoZeroFourEightState` with inline
bodies only for `CurrentPlayer`, `SetBoard`, `BoardAt`, `Clone` and the
game-level accessors; every other member (`LegalActions`, `DoApplyAction`,
`UndoAction`, `IsTerminal`, `Returns`, the action codecs, ...) is declared
but its body is not part of the repository snapshot.  Those operations are
therefore modelled from the specification (marked `Modelled from the
spec:`), keeping the data layout, constants and signatures that the header
does fix.  Likewise `kalah.h`/`kalah.cc` are absent: the sowing game is
modelled from the specification with the house layout pinned down by the
assertions of `kalah_test.cc` (stores at flat indices 7 and 0).
-/

namespace TwoZeroFourEight

/-- Framework player ids (from the open_spiel interface the header uses). -/
def kChancePlayerId : Int := -1

/-- Framework id returned by `CurrentPlayer` on terminal states. -/
def kTerminalPlayerId : Int := -4

/-- Framework sentinel for "no winner decided yet" (`outcome_`). -/
def kInvalidPlayer : Int := -3

/-- `kMaxMovesWithoutCapture` from the header: draw threshold. -/
def kMaxMovesWithoutCapture : Nat := 40

/-- `kNoMultipleJumpsPossible` from the header: cleared pending-capture cursor. -/
def kNoMultipleJumpsPossible : Int := -1

/-- Cell values, `enum class CellState` of the header in declaration order:
`kEmpty = 0`, `kWhite = 1`, `kBlack = 2`, `kWhiteKing = 3`, `kBlackKing = 4`.
The board itself is a `std::vector<int>`, so cells are plain integers. -/
def kEmptyCell : Int := 0

def kWhiteCell : Int := 1

def kBlackCell : Int := 2

def kWhiteKingCell : Int := 3

def kBlackKingCell : Int := 4

/-- `struct ChanceAction` of the header. -/
structure ChanceAction where
  row : Nat
  column : Nat
  is_four : Bool
deriving DecidableEq

/-- `struct CheckersAction` of the header: origin cell, direction, move type
(`MoveType`: `kNormal = 0`, `kCapture = 1`). -/
structure CheckersAction where
  row : Nat
  column : Nat
  direction : Nat
  move_type : Nat
deriving DecidableEq

/-- `struct TurnHistoryInfo` of the header: the reversible-move record
(action id, acting player, captured piece type — `kMan` when the move was
not a capture — and the mover's piece type before the move). -/
structure TurnHistoryInfo where
  action : Nat
  player : Int
  captured_piece_type : Nat
  player_piece_type : Nat
deriving DecidableEq

/-- The mutable fields of `class TwoZeroFourEightState` (header, private
section): current player, outcome, pending multi-jump cursor, dimensions,
move-without-progress counter, flat row-major board, turn history. -/
structure TwoZeroFourEightState where
  current_player : Int
  outcome : Int
  multiple_jump_piece : Int
  rows : Nat
  columns : Nat
  moves_without_capture : Nat
  board : List Int
  turn_history_info : List TurnHistoryInfo
deriving DecidableEq

/-- `SetBoard` — inline in the header: `board_[row * columns_ + column] = num`. -/
def SetBoard (s : TwoZeroFourEightState) (row column : Nat) (num : Int) :
    TwoZeroFourEightState :=
  { s with board := s.board.set (row * s.columns + column) num }

/-- `BoardAt` — inline in the header: `return board_[row * columns_ + column]`. -/
def BoardAt (s : TwoZeroFourEightState) (row column : Nat) : Int :=
  s.board.getD (row * s.columns + column) 0

/-- Modelled from the spec: the player-move codec
(`CheckersActionToSpielAction`, body not in the repository snapshot).  The
spec requires a total bijection from {origin row, origin col, direction in a
fixed compass set of four, move-kind normal/capture} onto `[0, N)`; this is
the canonical mixed-radix encoding. -/
def CheckersActionToSpielAction (s : TwoZeroFourEightState)
    (m : CheckersAction) : Nat :=
  ((m.row * s.columns + m.column) * 4 + m.direction) * 2 + m.move_type

/-- Modelled from the spec: the player-move decoder
(`SpielActionToCheckersAction`, body not in the repository snapshot),
inverse of `CheckersActionToSpielAction`. -/
def SpielActionToCheckersAction (s : TwoZeroFourEightState) (a : Nat) :
    CheckersAction :=
  ⟨a / 2 / 4 / s.columns, a / 2 / 4 % s.columns, a / 2 % 4, a % 2⟩

/-- Modelled from the spec: the chance-move codec
(`ChanceActionToSpielAction`, body not in the repository snapshot): encodes
{target cell, placed value} (`ChanceAction`, with `is_four` choosing the
tile value) into `[0, M)`. -/
def ChanceActionToSpielAction (s : TwoZeroFourEightState)
    (m : ChanceAction) : Nat :=
  (m.row * s.columns + m.column) * 2 + (if m.is_four then 1 else 0)

/-- Modelled from the spec: the chance-move decoder
(`SpielActionToChanceAction`, body not in the repository snapshot). -/
def SpielActionToChanceAction (s : TwoZeroFourEightState) (a : Nat) :
    ChanceAction :=
  ⟨a / 2 / s.columns, a / 2 % s.columns, a % 2 == 1⟩

/-- Owner of a cell value: `some 0` for White pieces (player zero is White,
per the header comment on `current_player_`), `some 1` for Black pieces,
`none` for anything else. -/
def pieceOwner (v : Int) : Option Int :=
  if v == kWhiteCell || v == kWhiteKingCell then some 0
  else if v == kBlackCell || v == kBlackKingCell then some 1
  else none

/-- `PieceType` of a cell value: `kKing = 1` for king cells, `kMan = 0`
otherwise. -/
def pieceTypeOf (v : Int) : Nat :=
  if v == kWhiteKingCell || v == kBlackKingCell then 1 else 0

/-- Cell value of player `p`'s piece of type `t` (`kMan = 0`, `kKing = 1`). -/
def makePiece (p : Int) (t : Nat) : Int :=
  if p == 0 then (if t == 0 then kWhiteCell else kWhiteKingCell)
  else (if t == 0 then kBlackCell else kBlackKingCell)

/-- The opponent of player `p` (players are `0` and `1`). -/
def opponentOf (p : Int) : Int := 1 - p

/-- Modelled from the spec: direction compass of the Legal-Move Generator
(bodies absent).  Directions `0,1` decrease the row, `2,3` increase it;
even directions decrease the column, odd ones increase it.
`shiftPos s d r c k` moves `k` diagonal steps from `(r, c)` in direction
`d` and returns `none` when the target leaves the board. -/
def shiftPos (s : TwoZeroFourEightState) (d r c k : Nat) :
    Option (Nat × Nat) :=
  if d == 0 then
    (if k ≤ r && k ≤ c then some (r - k, c - k) else none)
  else if d == 1 then
    (if k ≤ r && c + k < s.columns then some (r - k, c + k) else none)
  else if d == 2 then
    (if r + k < s.rows && k ≤ c then some (r + k, c - k) else none)
  else
    (if r + k < s.rows && c + k < s.columns then some (r + k, c + k) else none)

/-- Modelled from the spec: which directions a piece may move in.  Men move
only toward the opposing side (White toward larger rows, Black toward row
zero), kings in all four diagonal directions. -/
def dirAllowed (v : Int) (d : Nat) : Bool :=
  if v == kWhiteCell then d == 2 || d == 3
  else if v == kBlackCell then d == 0 || d == 1
  else if v == kWhiteKingCell || v == kBlackKingCell then d == 0 || d == 1 || d == 2 || d == 3
  else false

/-- `CrownStateIfLastRowReached` (body absent) — modelled from the spec:
a man reaching the farthest row from its owner is promoted to a king at
the moment the landing cell is finalized. -/
def CrownStateIfLastRowReached (s : TwoZeroFourEightState) (row : Nat)
    (v : Int) : Int :=
  if v == kWhiteCell && row == s.rows - 1 then kWhiteKingCell
  else if v == kBlackCell && row == 0 then kBlackKingCell
  else v

/-- Modelled from the spec: a capture step is legal when the origin holds
the mover's piece, the direction is allowed for that piece, the adjacent
cell holds an opposing piece and the cell beyond it is empty and on the
board (step 2 of the Legal-Move Generator algorithm). -/
def captureOk (s : TwoZeroFourEightState) (m : CheckersAction) : Bool :=
  let piece := BoardAt s m.row m.column
  pieceOwner piece == some s.current_player && dirAllowed piece m.direction &&
    match shiftPos s m.direction m.row m.column 1,
        shiftPos s m.direction m.row m.column 2 with
    | some (mr, mc), some (er, ec) =>
        pieceOwner (BoardAt s mr mc) == some (opponentOf s.current_player) &&
          BoardAt s er ec == kEmptyCell
    | _, _ => false

/-- Modelled from the spec: a normal step is legal when the origin holds the
mover's piece, the direction is allowed and the adjacent cell is empty
(step 5 of the Legal-Move Generator algorithm). -/
def normalOk (s : TwoZeroFourEightState) (m : CheckersAction) : Bool :=
  let piece := BoardAt s m.row m.column
  pieceOwner piece == some s.current_player && dirAllowed piece m.direction &&
    match shiftPos s m.direction m.row m.column 1 with
    | some (er, ec) => BoardAt s er ec == kEmptyCell
    | none => false

/-- All structured player moves over the board, row-major, direction-major,
normal before capture: the enumeration the generator filters. -/
def allCheckersMoves (s : TwoZeroFourEightState) : List CheckersAction :=
  (List.range s.rows).flatMap fun r =>
    (List.range s.columns).flatMap fun c =>
      (List.range 4).flatMap fun d =>
        (List.range 2).map fun t => ⟨r, c, d, t⟩

/-- Modelled from the spec: every legal capture move of the current player. -/
def CaptureMoves (s : TwoZeroFourEightState) : List CheckersAction :=
  (allCheckersMoves s).filter fun m => m.move_type == 1 && captureOk s m

/-- Modelled from the spec: every legal non-capture move of the current
player. -/
def NormalMoves (s : TwoZeroFourEightState) : List CheckersAction :=
  (allCheckersMoves s).filter fun m => m.move_type == 0 && normalOk s m

/-- Capture moves whose origin is the cell `(r, c)` — used for the forced
multi-jump continuation scan. -/
def CaptureMovesFrom (s : TwoZeroFourEightState) (r c : Nat) :
    List CheckersAction :=
  (CaptureMoves s).filter fun m => m.row == r && m.column == c

/-- Modelled from the spec: the currently-empty placement cells for chance
nodes, row-major. -/
def AvailableCells (s : TwoZeroFourEightState) : List (Nat × Nat) :=
  (List.range s.rows).flatMap fun r =>
    ((List.range s.columns).filter fun c => BoardAt s r c == kEmptyCell).map
      fun c => (r, c)

/-- `AvailableCellCount` (body absent) — number of empty placement cells. -/
def AvailableCellCount (s : TwoZeroFourEightState) : Nat :=
  (AvailableCells s).length

/-- Chance action ids of a cell, one per placeable tile value. -/
def chanceIdsOfCell (s : TwoZeroFourEightState) (rc : Nat × Nat) : List Nat :=
  [ChanceActionToSpielAction s ⟨rc.1, rc.2, false⟩,
   ChanceActionToSpielAction s ⟨rc.1, rc.2, true⟩]

/-- Modelled from the spec: the move list before the terminal check.  At a
chance node: one id per empty cell and placeable value.  Otherwise: with a
pending-capture cursor set, only captures originating from the cursor cell
(the cursor holds the flat index of the cell; the header comment writes
`row * rows_ + column`, but the header's own inline `SetBoard`/`BoardAt`
use `row * columns_ + column` as the flat index, which is the aliasing-free
choice this model uses); with no cursor, all captures when any exists
(captures are mandatory), else all normal steps. -/
def currentLegalMoves (s : TwoZeroFourEightState) : List Nat :=
  if s.current_player == kChancePlayerId then
    (AvailableCells s).flatMap (chanceIdsOfCell s)
  else if s.multiple_jump_piece != kNoMultipleJumpsPossible then
    ((CaptureMoves s).filter fun m =>
        ((m.row * s.columns + m.column : Nat) : Int) == s.multiple_jump_piece).map
      (CheckersActionToSpielAction s)
  else if !(CaptureMoves s).isEmpty then
    (CaptureMoves s).map (CheckersActionToSpielAction s)
  else
    (NormalMoves s).map (CheckersActionToSpielAction s)

/-- `IsTerminal` (body absent) — modelled from the spec: terminal when the
move-without-progress counter reaches the draw threshold or the mover has
no legal response. -/
def IsTerminal (s : TwoZeroFourEightState) : Bool :=
  kMaxMovesWithoutCapture ≤ s.moves_without_capture ||
    (currentLegalMoves s).isEmpty

/-- `LegalActions` (body absent) — modelled from the spec: empty exactly on
terminal states, otherwise the generator's list. -/
def LegalActions (s : TwoZeroFourEightState) : List Nat :=
  if IsTerminal s then [] else currentLegalMoves s

/-- `CurrentPlayer` — inline in the header:
`return IsTerminal() ? kTerminalPlayerId : current_player_;`. -/
def CurrentPlayer (s : TwoZeroFourEightState) : Int :=
  if IsTerminal s then kTerminalPlayerId else s.current_player

/-- `Returns` (body absent) — modelled from the spec: zero-sum; reaching the
draw threshold yields the drawn payoff `{0, 0}` regardless of material;
otherwise a mover with no response loses. -/
def Returns (s : TwoZeroFourEightState) : List Int :=
  if kMaxMovesWithoutCapture ≤ s.moves_without_capture then [0, 0]
  else if s.current_player == 0 then [-1, 1]
  else [1, -1]

/-- A history record's action id encodes a capture in its lowest bit (the
`move_type` digit of `CheckersActionToSpielAction`). -/
def recordIsCapture (thi : TurnHistoryInfo) : Bool := thi.action % 2 == 1

/-- The number of player moves since the last capture, reconstructed from
the history stack (head = most recent record); chance records do not count
as moves.  The move-without-progress counter of every reachable state
equals this value. -/
def histCounter : List TurnHistoryInfo → Nat
  | [] => 0
  | thi :: rest =>
      if thi.player == kChancePlayerId then histCounter rest
      else if recordIsCapture thi then 0
      else histCounter rest + 1

/-- Modelled from the spec: `DoApplyAction` (body absent).  Chance moves
place the sampled tile and hand the move to player zero.  Player moves
decode the id, move the piece (removing the jumped piece on a capture),
promote on the farthest row, push a `TurnHistoryInfo` record, update the
move-without-progress counter (reset on capture, incremented otherwise)
and either continue a mandatory multi-jump from the landing cell — keeping
the current player, unless the landing promoted the piece, which
interrupts the chain — or toggle the player and clear the cursor. -/
def DoApplyAction (s : TwoZeroFourEightState) (a : Nat) :
    TwoZeroFourEightState :=
  if s.current_player == kChancePlayerId then
    let m := SpielActionToChanceAction s a
    { SetBoard s m.row m.column (if m.is_four then 4 else 2) with
      current_player := 0,
      turn_history_info := ⟨a, kChancePlayerId, 0, 0⟩ :: s.turn_history_info }
  else
    let m := SpielActionToCheckersAction s a
    let p := s.current_player
    let piece := BoardAt s m.row m.column
    if m.move_type == 0 then
      match shiftPos s m.direction m.row m.column 1 with
      | none => s
      | some (er, ec) =>
          { SetBoard (SetBoard s m.row m.column kEmptyCell) er ec
              (CrownStateIfLastRowReached s er piece) with
            current_player := opponentOf p,
            multiple_jump_piece := kNoMultipleJumpsPossible,
            moves_without_capture := s.moves_without_capture + 1,
            turn_history_info :=
              ⟨a, p, 0, pieceTypeOf piece⟩ :: s.turn_history_info }
    else
      match shiftPos s m.direction m.row m.column 1,
          shiftPos s m.direction m.row m.column 2 with
      | some (mr, mc), some (er, ec) =>
          let newPiece := CrownStateIfLastRowReached s er piece
          let s2 :=
            { SetBoard (SetBoard (SetBoard s m.row m.column kEmptyCell)
                mr mc kEmptyCell) er ec newPiece with
              moves_without_capture := 0,
              turn_history_info :=
                ⟨a, p, pieceTypeOf (BoardAt s mr mc), pieceTypeOf piece⟩ ::
                  s.turn_history_info }
          if newPiece == piece && !(CaptureMovesFrom s2 er ec).isEmpty then
            { s2 with
              multiple_jump_piece := ((er * s.columns + ec : Nat) : Int) }
          else
            { s2 with
              current_player := opponentOf p,
              multiple_jump_piece := kNoMultipleJumpsPossible }
      | _, _ => s

/-- Modelled from the spec: `UndoAction` (body absent).  Pops the top
history record, restores the mover's prior piece at the origin (reverting
promotion), empties the landing cell, restores the captured piece (its
type from the record, its colour the mover's opponent), restores the
previous current player, and decrements (non-capture) or recomputes from
the remaining history (capture) the move-without-progress counter.  A
chance record simply removes the placed tile. -/
def UndoAction (s : TwoZeroFourEightState) (player : Int) (a : Nat) :
    TwoZeroFourEightState :=
  match s.turn_history_info with
  | [] => s
  | _thi :: rest =>
    if player == kChancePlayerId then
      let m := SpielActionToChanceAction s a
      { SetBoard s m.row m.column kEmptyCell with
        current_player := kChancePlayerId,
        outcome := kInvalidPlayer,
        multiple_jump_piece := kNoMultipleJumpsPossible,
        turn_history_info := rest }
    else
      let m := SpielActionToCheckersAction s a
      let piece := makePiece player _thi.player_piece_type
      if m.move_type == 0 then
        match shiftPos s m.direction m.row m.column 1 with
        | none => s
        | some (er, ec) =>
            { SetBoard (SetBoard s er ec kEmptyCell) m.row m.column piece with
              current_player := player,
              outcome := kInvalidPlayer,
              multiple_jump_piece := kNoMultipleJumpsPossible,
              moves_without_capture := s.moves_without_capture - 1,
              turn_history_info := rest }
      else
        match shiftPos s m.direction m.row m.column 1,
            shiftPos s m.direction m.row m.column 2 with
        | some (mr, mc), some (er, ec) =>
            { SetBoard (SetBoard (SetBoard s er ec kEmptyCell) mr mc
                (makePiece (opponentOf player) _thi.captured_piece_type))
                m.row m.column piece with
              current_player := player,
              outcome := kInvalidPlayer,
              multiple_jump_piece := kNoMultipleJumpsPossible,
              moves_without_capture := histCounter rest,
              turn_history_info := rest }
        | _, _ => s

/-- The state reached by a capture move before the chain-continuation
decision: board updated (origin and jumped cell emptied, landing cell
holds the possibly-promoted piece), counter reset, record pushed.  This is
exactly the intermediate state of the capture branch of `DoApplyAction`. -/
def captureMidState (s : TwoZeroFourEightState) (a : Nat)
    (m : CheckersAction) (mr mc er ec : Nat) : TwoZeroFourEightState :=
  { SetBoard (SetBoard (SetBoard s m.row m.column kEmptyCell) mr mc
      kEmptyCell) er ec
      (CrownStateIfLastRowReached s er (BoardAt s m.row m.column)) with
    moves_without_capture := 0,
    turn_history_info :=
      ⟨a, s.current_player, pieceTypeOf (BoardAt s mr mc),
        pieceTypeOf (BoardAt s m.row m.column)⟩ :: s.turn_history_info }

/-- The full result of the capture branch of `DoApplyAction` (the
chain-continuation decision applied to `captureMidState`). -/
def applyCapture (s : TwoZeroFourEightState) (a : Nat) (m : CheckersAction)
    (mr mc er ec : Nat) : TwoZeroFourEightState :=
  if CrownStateIfLastRowReached s er (BoardAt s m.row m.column) ==
        BoardAt s m.row m.column &&
      !(CaptureMovesFrom (captureMidState s a m mr mc er ec) er ec).isEmpty
  then
    { captureMidState s a m mr mc er ec with
      multiple_jump_piece := ((er * s.columns + ec : Nat) : Int) }
  else
    { captureMidState s a m mr mc er ec with
      current_player := opponentOf s.current_player,
      multiple_jump_piece := kNoMultipleJumpsPossible }

/-- The result of the normal-move branch of `DoApplyAction`. -/
def applyNormal (s : TwoZeroFourEightState) (a : Nat) (m : CheckersAction)
    (er ec : Nat) : TwoZeroFourEightState :=
  { SetBoard (SetBoard s m.row m.column kEmptyCell) er ec
      (CrownStateIfLastRowReached s er (BoardAt s m.row m.column)) with
    current_player := opponentOf s.current_player,
    multiple_jump_piece := kNoMultipleJumpsPossible,
    moves_without_capture := s.moves_without_capture + 1,
    turn_history_info :=
      ⟨a, s.current_player, 0, pieceTypeOf (BoardAt s m.row m.column)⟩ ::
        s.turn_history_info }

/-- The result of the chance branch of `DoApplyAction`. -/
def applyChance (s : TwoZeroFourEightState) (a : Nat) :
    TwoZeroFourEightState :=
  { SetBoard s (SpielActionToChanceAction s a).row
      (SpielActionToChanceAction s a).column
      (if (SpielActionToChanceAction s a).is_four then 4 else 2) with
    current_player := 0,
    turn_history_info := ⟨a, kChancePlayerId, 0, 0⟩ :: s.turn_history_info }

/-- `NewInitialState` — the header's field initializers (`current_player_ =
kChancePlayerId`, `outcome_ = kInvalidPlayer`, `multiple_jump_piece_ =
kNoMultipleJumpsPossible`); the board and counter initialization are
modelled from the spec (empty board, counter zero). -/
def NewInitialState (rows columns : Nat) : TwoZeroFourEightState :=
  { current_player := kChancePlayerId,
    outcome := kInvalidPlayer,
    multiple_jump_piece := kNoMultipleJumpsPossible,
    rows := rows,
    columns := columns,
    moves_without_capture := 0,
    board := List.replicate (rows * columns) 0,
    turn_history_info := [] }

/-- Modelled from the spec: `ChanceOutcomes` (body absent): one outcome per
empty cell and placeable tile value, probabilities uniform over cells with
the standard 9/10 versus 1/10 split between the two tile values, summing
to one.  Probabilities are exact rationals in the model. -/
def ChanceOutcomes (s : TwoZeroFourEightState) : List (Nat × ℚ) :=
  (AvailableCells s).flatMap fun rc =>
    [(ChanceActionToSpielAction s ⟨rc.1, rc.2, false⟩,
        (9 / 10 : ℚ) / AvailableCellCount s),
     (ChanceActionToSpielAction s ⟨rc.1, rc.2, true⟩,
        (1 / 10 : ℚ) / AvailableCellCount s)]

/-- The reachability invariant used throughout: the move-without-progress
counter agrees with the history stack, and the board has the advertised
row-major size.  It holds for `NewInitialState` and is preserved by
`DoApplyAction` on legal actions (`Inv_initial`, `Inv_preserved`), and any
board installed by `SetCustomBoard` with a fresh history satisfies it. -/
def Inv (s : TwoZeroFourEightState) : Prop :=
  s.moves_without_capture = histCounter s.turn_history_info ∧
    s.board.length = s.rows * s.columns

instance (s : TwoZeroFourEightState) : Decidable (Inv s) :=
  decidable_of_iff
    (s.moves_without_capture = histCounter s.turn_history_info ∧
      s.board.length = s.rows * s.columns) Iff.rfl

/-- A 5×4 position, White to move: a White man on (0,0), Black men on
(1,1) and (3,1).  The capture over (1,1) lands on (2,2), does not promote,
and leaves a further capture over (3,1) from the landing cell. -/
def exampleChainState : TwoZeroFourEightState :=
  { current_player := 0, outcome := kInvalidPlayer,
    multiple_jump_piece := kNoMultipleJumpsPossible,
    rows := 5, columns := 4, moves_without_capture := 0,
    board := [1,0,0,0, 0,2,0,0, 0,0,0,0, 0,2,0,0, 0,0,0,0],
    turn_history_info := [] }

/-- A 4×5 position, White to move: a White man on (1,0), Black men on
(2,1) and (2,3).  The capture over (2,1) lands on the farthest row at
(3,2) and promotes, while a further capture over (2,3) would be available
from the landing cell. -/
def exampleCrownState : TwoZeroFourEightState :=
  { current_player := 0, outcome := kInvalidPlayer,
    multiple_jump_piece := kNoMultipleJumpsPossible,
    rows := 4, columns := 5, moves_without_capture := 0,
    board := [0,0,0,0,0, 1,0,0,0,0, 0,2,0,2,0, 0,0,0,0,0],
    turn_history_info := [] }

/-- A 4×4 mid-multi-jump position, White to move with the pending-capture
cursor on (1,1): White men on (1,1) and (1,3), a Black man on (2,2); both
White men have capture moves but only the cursor piece may move.  The
history holds the capture record that set the cursor. -/
def exampleMidJumpState : TwoZeroFourEightState :=
  { current_player := 0, outcome := kInvalidPlayer,
    multiple_jump_piece := 5,
    rows := 4, columns := 4, moves_without_capture := 0,
    board := [0,0,0,0, 0,1,0,1, 0,0,2,0, 0,0,0,0],
    turn_history_info := [⟨1, 0, 0, 0⟩] }

/-- The mid-jump position with the move-without-progress counter at the
draw threshold and a matching history of 40 quiet moves recorded after a
capture: material remains, but the game is a draw by inactivity. -/
def exampleDrawState : TwoZeroFourEightState :=
  { current_player := 0, outcome := kInvalidPlayer,
    multiple_jump_piece := kNoMultipleJumpsPossible,
    rows := 4, columns := 4, moves_without_capture := 40,
    board := [0,0,0,0, 0,1,0,1, 0,0,2,0, 0,0,0,0],
    turn_history_info := List.replicate 40 ⟨0, 0, 0, 0⟩ ++ [⟨1, 0, 0, 0⟩] }

end TwoZeroFourEight

namespace Kalah

/-!
The counting/sowing game.  `kalah.h`/`kalah.cc` are not part of the
repository snapshot; only `kalah_test.cc` is.  The sowing rules below are
modelled from the spec (§4.3, counting/sowing algorithm); the board layout
is the one the in-repository test assertions pin down: a flat vector of 14
pits, player 0's houses at indices 1–6 with store at index 7, player 1's
houses at indices 8–13 with store at index 0 (the tests sow from indices
1–6, observe the skip of index 0, and find captures in index 7).
-/

/-- Number of houses per player. -/
def kNumHouses : Nat := 6

/-- Total number of pits (houses plus the two stores). -/
def kTotalPits : Nat := 14

/-- The store pit of player `p`. -/
def playerStore (p : Nat) : Nat := if p == 0 then 7 else 0

/-- The store pit of player `p`'s opponent. -/
def opponentStore (p : Nat) : Nat := if p == 0 then 0 else 7

/-- Whether pit `h` is a house owned by player `p`. -/
def isOwnHouse (p h : Nat) : Bool :=
  if p == 0 then 1 ≤ h && h ≤ 6 else 8 ≤ h && h ≤ 13

/-- The house directly opposite house `h` (`1 ↔ 13`, ..., `6 ↔ 8`). -/
def oppositeHouse (h : Nat) : Nat := kTotalPits - h

/-- Modelled from the spec: the next pit in the fixed cyclic sowing order,
skipping the opponent's store entirely. -/
def NextHouse (p h : Nat) : Nat :=
  let n := (h + 1) % kTotalPits
  if n == opponentStore p then (n + 1) % kTotalPits else n

/-- Modelled from the spec: sow `n` seeds one per pit starting after `pos`,
returning the board and the pit the last seed landed in. -/
def sow (p : Nat) : List Nat → Nat → Nat → List Nat × Nat
  | b, pos, 0 => (b, pos)
  | b, pos, n + 1 =>
      let pos2 := NextHouse p pos
      sow p (b.set pos2 (b.getD pos2 0 + 1)) pos2 n

/-- Modelled from the spec: `KalahState::DoApplyAction` (not in the
repository snapshot).  Empties the chosen house, sows its seeds cyclically
(skipping the opponent's store), and if the last seed lands in a
previously-empty house of the mover while the directly-opposite house is
non-empty, moves the landed seed and the opposite house's contents to the
mover's store. -/
def DoApplyAction (p : Nat) (b : List Nat) (h : Nat) : List Nat :=
  let n := b.getD h 0
  let b1 := b.set h 0
  let r := sow p b1 h n
  let b2 := r.1
  let last := r.2
  if isOwnHouse p last && b2.getD last 0 == 1 &&
      !(b2.getD (oppositeHouse last) 0 == 0) then
    ((b2.set last 0).set (oppositeHouse last) 0).set (playerStore p)
      (b2.getD (playerStore p) 0 + 1 + b2.getD (oppositeHouse last) 0)
  else b2

/-- Modelled from the spec: `KalahState::LegalActions` (not in the
repository snapshot): the mover's non-empty houses, in ascending index
order. -/
def LegalActions (p : Nat) (b : List Nat) : List Nat :=
  (List.range kTotalPits).filter fun h =>
    isOwnHouse p h && !(b.getD h 0 == 0)

/-- Number of sowing steps from house `h` to the mover's own store (the
opponent's store is never on this stretch of the cycle). -/
def distToStore (p h : Nat) : Nat := if p == 0 then 7 - h else 14 - h

/-- Cyclic distance from pit `pos` to player `p`'s store, used as the
decreasing measure of the sowing induction. -/
def storeDist (p pos : Nat) : Nat := (playerStore p + kTotalPits - pos) % kTotalPits

end Kalah

/-! ### General list helpers -/

theorem getD_set_self {α} [Inhabited α] (l : List α) (i : Nat)
    (h : i < l.length) (a d : α) : (l.set i a).getD i d = a := by
  simp [List.getD_eq_getElem?_getD, List.getElem?_set_self, h]

theorem getD_set_ne {α} [Inhabited α] (l : List α) {i j : Nat} (h : i ≠ j)
    (a d : α) : (l.set i a).getD j d = l.getD j d := by
  simp [List.getD_eq_getElem?_getD, List.getElem?_set_ne h]

theorem set_getD_self {α} [Inhabited α] (l : List α) (i : Nat)
    (h : i < l.length) (d : α) : l.set i (l.getD i d) = l := by
  induction l generalizing i with
  | nil => simp at h
  | cons x xs ih =>
      cases i with
      | zero => simp [List.getD]
      | succ n =>
          simp only [List.length_cons, Nat.succ_lt_succ_iff] at h
          have := ih n h
          simp only [List.getD_eq_getElem?_getD] at this
          simp [List.getD_cons_succ, List.set, List.getD_eq_getElem?_getD, this]

theorem sum_set_nat (l : List Nat) (i : Nat) (h : i < l.length) (v : Nat) :
    (l.set i v).sum + l.getD i 0 = l.sum + v := by
  induction l generalizing i with
  | nil => simp at h
  | cons x xs ih =>
      cases i with
      | zero => simp [List.getD]; omega
      | succ n =>
          simp only [List.length_cons, Nat.succ_lt_succ_iff] at h
          have := ih n h
          simp only [List.set, List.sum_cons, List.getD_cons_succ]
          omega

/-! ### Flat row-major index helpers -/

theorem flat_lt {r c R C : Nat} (hr : r < R) (hc : c < C) :
    r * C + c < R * C := by
  calc r * C + c < r * C + C := by omega
  _ = (r + 1) * C := by ring
  _ ≤ R * C := Nat.mul_le_mul_right C hr

theorem flat_div {C r c : Nat} (hc : c < C) : (r * C + c) / C = r := by
  rw [Nat.mul_comm r C, Nat.mul_add_div (by omega), Nat.div_eq_of_lt hc]
  omega

theorem flat_mod {C r c : Nat} (hc : c < C) : (r * C + c) % C = c := by
  rw [Nat.mul_comm r C, Nat.mul_add_mod, Nat.mod_eq_of_lt hc]

theorem flat_inj {C r1 c1 r2 c2 : Nat} (hc1 : c1 < C) (hc2 : c2 < C)
    (h : r1 * C + c1 = r2 * C + c2) : r1 = r2 ∧ c1 = c2 := by
  have h1 : (r1 * C + c1) / C = (r2 * C + c2) / C := by rw [h]
  rw [flat_div hc1, flat_div hc2] at h1
  subst h1
  exact ⟨rfl, by omega⟩

theorem flat_ne_of_row_ne {C r1 c1 r2 c2 : Nat} (hc1 : c1 < C)
    (hc2 : c2 < C) (h : r1 ≠ r2) : r1 * C + c1 ≠ r2 * C + c2 :=
  fun he => h (flat_inj hc1 hc2 he).1

namespace TwoZeroFourEight

/-! ### Codec lemmas -/

theorem checkers_dec_enc (s : TwoZeroFourEightState) (m : CheckersAction)
    (hc : m.column < s.columns) (hd : m.direction < 4)
    (ht : m.move_type < 2) :
    SpielActionToCheckersAction s (CheckersActionToSpielAction s m) = m := by
  obtain ⟨r, c, d, t⟩ := m
  simp only [CheckersActionToSpielAction, SpielActionToCheckersAction] at *
  have e1 : (((r * s.columns + c) * 4 + d) * 2 + t) / 2 =
      (r * s.columns + c) * 4 + d := by omega
  have e2 : (((r * s.columns + c) * 4 + d) * 2 + t) % 2 = t := by omega
  rw [e1, e2]
  have e3 : ((r * s.columns + c) * 4 + d) / 4 = r * s.columns + c := by omega
  have e4 : ((r * s.columns + c) * 4 + d) % 4 = d := by omega
  rw [e3, e4, flat_div hc, flat_mod hc]

theorem checkers_enc_dec (s : TwoZeroFourEightState) (a : Nat) :
    CheckersActionToSpielAction s (SpielActionToCheckersAction s a) = a := by
  simp only [CheckersActionToSpielAction, SpielActionToCheckersAction]
  have e1 : a / 2 / 4 / s.columns * s.columns + a / 2 / 4 % s.columns =
      a / 2 / 4 := by
    rw [Nat.mul_comm]
    exact Nat.div_add_mod _ _
  rw [e1]
  omega

theorem checkers_enc_lt (s : TwoZeroFourEightState) (m : CheckersAction)
    (hr : m.row < s.rows) (hc : m.column < s.columns) (hd : m.direction < 4)
    (ht : m.move_type < 2) :
    CheckersActionToSpielAction s m < s.rows * s.columns * 8 := by
  have h1 : m.row * s.columns + m.column < s.rows * s.columns := flat_lt hr hc
  simp only [CheckersActionToSpielAction]
  omega

theorem checkers_dec_ranges (s : TwoZeroFourEightState) (a : Nat)
    (h : a < s.rows * s.columns * 8) :
    (SpielActionToCheckersAction s a).row < s.rows ∧
      (SpielActionToCheckersAction s a).column < s.columns ∧
      (SpielActionToCheckersAction s a).direction < 4 ∧
      (SpielActionToCheckersAction s a).move_type < 2 := by
  have hC : 0 < s.columns := by
    rcases Nat.eq_zero_or_pos s.columns with h0 | h0
    · rw [h0] at h; omega
    · exact h0
  simp only [SpielActionToCheckersAction]
  refine ⟨?_, Nat.mod_lt _ hC, by omega, by omega⟩
  have h8 : a / 2 / 4 < s.rows * s.columns := by omega
  exact Nat.div_lt_of_lt_mul (by rw [Nat.mul_comm s.rows s.columns] at h8; exact h8)

theorem chance_dec_enc (s : TwoZeroFourEightState) (m : ChanceAction)
    (hc : m.column < s.columns) :
    SpielActionToChanceAction s (ChanceActionToSpielAction s m) = m := by
  obtain ⟨r, c, f⟩ := m
  simp only [ChanceActionToSpielAction, SpielActionToChanceAction]
  cases f with
  | false =>
      have e1 : ((r * s.columns + c) * 2 + 0) / 2 = r * s.columns + c := by omega
      have e2 : ((r * s.columns + c) * 2 + 0) % 2 = 0 := by omega
      simp only [if_neg (by simp : ¬False), Bool.false_eq_true, if_false, e1, e2,
        flat_div hc, flat_mod hc]
      simp
  | true =>
      have e1 : ((r * s.columns + c) * 2 + 1) / 2 = r * s.columns + c := by omega
      have e2 : ((r * s.columns + c) * 2 + 1) % 2 = 1 := by omega
      simp only [if_pos trivial, e1, e2, flat_div hc, flat_mod hc]
      simp

theorem chance_enc_dec (s : TwoZeroFourEightState) (a : Nat) :
    ChanceActionToSpielAction s (SpielActionToChanceAction s a) = a := by
  simp only [ChanceActionToSpielAction, SpielActionToChanceAction]
  have e1 : a / 2 / s.columns * s.columns + a / 2 % s.columns = a / 2 := by
    rw [Nat.mul_comm]
    exact Nat.div_add_mod _ _
  rw [e1]
  rcases Nat.mod_two_eq_zero_or_one a with h2 | h2 <;> simp [h2] <;> omega

theorem chance_enc_lt (s : TwoZeroFourEightState) (m : ChanceAction)
    (hr : m.row < s.rows) (hc : m.column < s.columns) :
    ChanceActionToSpielAction s m < s.rows * s.columns * 2 := by
  have h1 : m.row * s.columns + m.column < s.rows * s.columns := flat_lt hr hc
  simp only [ChanceActionToSpielAction]
  cases m.is_four <;> simp <;> omega

theorem chance_dec_ranges (s : TwoZeroFourEightState) (a : Nat)
    (h : a < s.rows * s.columns * 2) :
    (SpielActionToChanceAction s a).row < s.rows ∧
      (SpielActionToChanceAction s a).column < s.columns := by
  have hC : 0 < s.columns := by
    rcases Nat.eq_zero_or_pos s.columns with h0 | h0
    · rw [h0] at h; omega
    · exact h0
  simp only [SpielActionToChanceAction]
  refine ⟨?_, Nat.mod_lt _ hC⟩
  have h2 : a / 2 < s.rows * s.columns := by omega
  exact Nat.div_lt_of_lt_mul (by rw [Nat.mul_comm s.rows s.columns] at h2; exact h2)

/-! ### Move-generator membership lemmas -/

theorem mem_allCheckersMoves {s : TwoZeroFourEightState}
    {m : CheckersAction} :
    m ∈ allCheckersMoves s ↔
      m.row < s.rows ∧ m.column < s.columns ∧ m.direction < 4 ∧
        m.move_type < 2 := by
  simp only [allCheckersMoves, List.mem_flatMap, List.mem_map, List.mem_range]
  constructor
  · rintro ⟨r, hr, c, hc, d, hd, t, ht, rfl⟩
    exact ⟨hr, hc, hd, ht⟩
  · rintro ⟨hr, hc, hd, ht⟩
    exact ⟨m.row, hr, m.column, hc, m.direction, hd, m.move_type, ht, rfl⟩

theorem mem_CaptureMoves {s : TwoZeroFourEightState} {m : CheckersAction} :
    m ∈ CaptureMoves s ↔
      m ∈ allCheckersMoves s ∧ m.move_type = 1 ∧ captureOk s m = true := by
  simp only [CaptureMoves, List.mem_filter, Bool.and_eq_true, beq_iff_eq]

theorem mem_NormalMoves {s : TwoZeroFourEightState} {m : CheckersAction} :
    m ∈ NormalMoves s ↔
      m ∈ allCheckersMoves s ∧ m.move_type = 0 ∧ normalOk s m = true := by
  simp only [NormalMoves, List.mem_filter, Bool.and_eq_true, beq_iff_eq]

theorem mem_AvailableCells {s : TwoZeroFourEightState} {rc : Nat × Nat} :
    rc ∈ AvailableCells s ↔
      rc.1 < s.rows ∧ rc.2 < s.columns ∧ BoardAt s rc.1 rc.2 = 0 := by
  obtain ⟨r, c⟩ := rc
  simp only [AvailableCells, List.mem_flatMap, List.mem_map, List.mem_filter,
    List.mem_range, beq_iff_eq]
  constructor
  · rintro ⟨r', hr', c', ⟨hc', hb⟩, he⟩
    obtain ⟨rfl, rfl⟩ := Prod.mk.injEq .. ▸ he
    exact ⟨hr', hc', hb⟩
  · rintro ⟨hr, hc, hb⟩
    exact ⟨r, hr, c, ⟨hc, hb⟩, rfl⟩

/-- Any legal action of a non-chance node comes from the capture or normal
move list via the player-move codec. -/
theorem mem_currentLegalMoves_player {s : TwoZeroFourEightState} {a : Nat}
    (hp : (s.current_player == kChancePlayerId) = false)
    (ha : a ∈ currentLegalMoves s) :
    ∃ m, (m ∈ CaptureMoves s ∨ m ∈ NormalMoves s) ∧
      a = CheckersActionToSpielAction s m := by
  unfold currentLegalMoves at ha
  rw [hp] at ha
  simp only [Bool.false_eq_true, if_false] at ha
  by_cases hj : (s.multiple_jump_piece != kNoMultipleJumpsPossible) = true
  · rw [if_pos hj] at ha
    simp only [List.mem_map, List.mem_filter] at ha
    obtain ⟨m, ⟨hm, _⟩, he⟩ := ha
    exact ⟨m, Or.inl hm, he.symm⟩
  · rw [if_neg hj] at ha
    by_cases hc : (!(CaptureMoves s).isEmpty) = true
    · rw [if_pos hc] at ha
      simp only [List.mem_map] at ha
      obtain ⟨m, hm, he⟩ := ha
      exact ⟨m, Or.inl hm, he.symm⟩
    · rw [if_neg hc] at ha
      simp only [List.mem_map] at ha
      obtain ⟨m, hm, he⟩ := ha
      exact ⟨m, Or.inr hm, he.symm⟩

/-- Any legal action of a chance node encodes a placement into a
currently-empty cell. -/
theorem mem_currentLegalMoves_chance {s : TwoZeroFourEightState} {a : Nat}
    (hp : (s.current_player == kChancePlayerId) = true)
    (ha : a ∈ currentLegalMoves s) :
    ∃ rc, rc ∈ AvailableCells s ∧
      (a = ChanceActionToSpielAction s ⟨rc.1, rc.2, false⟩ ∨
        a = ChanceActionToSpielAction s ⟨rc.1, rc.2, true⟩) := by
  unfold currentLegalMoves at ha
  rw [hp, if_pos rfl] at ha
  simp only [List.mem_flatMap, chanceIdsOfCell, List.mem_cons,
    List.mem_singleton, List.not_mem_nil] at ha
  obtain ⟨rc, hrc, h1 | h1 | h1⟩ := ha
  · exact ⟨rc, hrc, Or.inl h1⟩
  · exact ⟨rc, hrc, Or.inr h1⟩
  · exact h1.elim

/-! ### shiftPos and piece lemmas -/

theorem shiftPos_bounds {s : TwoZeroFourEightState} {d r c k r2 c2 : Nat}
    (hr : r < s.rows) (hc : c < s.columns)
    (h : shiftPos s d r c k = some (r2, c2)) :
    r2 < s.rows ∧ c2 < s.columns := by
  unfold shiftPos at h
  split at h
  · split at h
    · simp only [Option.some.injEq, Prod.mk.injEq] at h
      obtain ⟨rfl, rfl⟩ := h
      omega
    · exact absurd h (by simp)
  · split at h
    · split at h
      · simp only [Option.some.injEq, Prod.mk.injEq] at h
        obtain ⟨rfl, rfl⟩ := h
        simp only [Bool.and_eq_true, decide_eq_true_eq] at *
        omega
      · exact absurd h (by simp)
    · split at h
      · split at h
        · simp only [Option.some.injEq, Prod.mk.injEq] at h
          obtain ⟨rfl, rfl⟩ := h
          simp only [Bool.and_eq_true, decide_eq_true_eq] at *
          omega
        · exact absurd h (by simp)
      · split at h
        · simp only [Option.some.injEq, Prod.mk.injEq] at h
          obtain ⟨rfl, rfl⟩ := h
          simp only [Bool.and_eq_true, decide_eq_true_eq] at *
          omega
        · exact absurd h (by simp)

theorem shiftPos_row {s : TwoZeroFourEightState} {d r c k r2 c2 : Nat}
    (h : shiftPos s d r c k = some (r2, c2)) :
    r2 + k = r ∨ r2 = r + k := by
  unfold shiftPos at h
  split at h
  · split at h
    · simp only [Option.some.injEq, Prod.mk.injEq] at h
      obtain ⟨rfl, rfl⟩ := h
      simp only [Bool.and_eq_true, decide_eq_true_eq] at *
      omega
    · exact absurd h (by simp)
  · split at h
    · split at h
      · simp only [Option.some.injEq, Prod.mk.injEq] at h
        obtain ⟨rfl, rfl⟩ := h
        simp only [Bool.and_eq_true, decide_eq_true_eq] at *
        omega
      · exact absurd h (by simp)
    · split at h
      · split at h
        · simp only [Option.some.injEq, Prod.mk.injEq] at h
          obtain ⟨rfl, rfl⟩ := h
          omega
        · exact absurd h (by simp)
      · split at h
        · simp only [Option.some.injEq, Prod.mk.injEq] at h
          obtain ⟨rfl, rfl⟩ := h
          omega
        · exact absurd h (by simp)

/-- A cell owned by a player is exactly that player's piece of its type. -/
theorem makePiece_pieceTypeOf {v p : Int} (h : pieceOwner v = some p) :
    makePiece p (pieceTypeOf v) = v := by
  unfold pieceOwner at h
  by_cases h1 : (v == kWhiteCell || v == kWhiteKingCell) = true
  · rw [if_pos h1] at h
    simp only [Option.some.injEq] at h
    subst h
    simp only [Bool.or_eq_true, beq_iff_eq] at h1
    rcases h1 with h1 | h1 <;> subst h1 <;> decide
  · rw [if_neg h1] at h
    by_cases h2 : (v == kBlackCell || v == kBlackKingCell) = true
    · rw [if_pos h2] at h
      simp only [Option.some.injEq] at h
      subst h
      simp only [Bool.or_eq_true, beq_iff_eq] at h2
      rcases h2 with h2 | h2 <;> subst h2 <;> decide
    · rw [if_neg h2] at h
      exact absurd h (by simp)

theorem captureOk_elim {s : TwoZeroFourEightState} {m : CheckersAction}
    (h : captureOk s m = true) :
    pieceOwner (BoardAt s m.row m.column) = some s.current_player ∧
      ∃ mr mc er ec,
        shiftPos s m.direction m.row m.column 1 = some (mr, mc) ∧
          shiftPos s m.direction m.row m.column 2 = some (er, ec) ∧
          pieceOwner (BoardAt s mr mc) = some (opponentOf s.current_player) ∧
          BoardAt s er ec = kEmptyCell := by
  unfold captureOk at h
  simp only [Bool.and_eq_true, beq_iff_eq] at h
  obtain ⟨⟨h1, _⟩, h3⟩ := h
  refine ⟨h1, ?_⟩
  rcases hs1 : shiftPos s m.direction m.row m.column 1 with _ | ⟨mr, mc⟩
  · rw [hs1] at h3
    rcases shiftPos s m.direction m.row m.column 2 with _ | e <;> simp at h3
  · rcases hs2 : shiftPos s m.direction m.row m.column 2 with _ | ⟨er, ec⟩
    · rw [hs1, hs2] at h3
      simp at h3
    · rw [hs1, hs2] at h3
      simp only [Bool.and_eq_true, beq_iff_eq] at h3
      exact ⟨mr, mc, er, ec, rfl, rfl, h3.1, h3.2⟩

theorem normalOk_elim {s : TwoZeroFourEightState} {m : CheckersAction}
    (h : normalOk s m = true) :
    pieceOwner (BoardAt s m.row m.column) = some s.current_player ∧
      ∃ er ec, shiftPos s m.direction m.row m.column 1 = some (er, ec) ∧
        BoardAt s er ec = kEmptyCell := by
  unfold normalOk at h
  simp only [Bool.and_eq_true, beq_iff_eq] at h
  obtain ⟨⟨h1, _⟩, h3⟩ := h
  refine ⟨h1, ?_⟩
  rcases hs1 : shiftPos s m.direction m.row m.column 1 with _ | ⟨er, ec⟩
  · rw [hs1] at h3
    simp at h3
  · rw [hs1] at h3
    simp only [beq_iff_eq] at h3
    exact ⟨er, ec, rfl, h3⟩

/-! ### Claim C10 — SetBoard/BoardAt -/

/-- C10: `SetBoard(row, column, value)` writes exactly the board entry at
flat row-major index `row * columns + column` and leaves every other board
cell and every other state field unchanged, and `BoardAt(row, column)`
reads that same entry, so reading after writing returns the written value. -/
theorem setboard_boardat_spec (s : TwoZeroFourEightState)
    (row column : Nat) (num : Int) (hr : row < s.rows)
    (hc : column < s.columns) (hlen : s.board.length = s.rows * s.columns) :
    BoardAt (SetBoard s row column num) row column = num ∧
      (∀ r c, r < s.rows → c < s.columns → (r, c) ≠ (row, column) →
        BoardAt (SetBoard s row column num) r c = BoardAt s r c) ∧
      (SetBoard s row column num).board =
        s.board.set (row * s.columns + column) num ∧
      (SetBoard s row column num).current_player = s.current_player ∧
      (SetBoard s row column num).outcome = s.outcome ∧
      (SetBoard s row column num).multiple_jump_piece =
        s.multiple_jump_piece ∧
      (SetBoard s row column num).rows = s.rows ∧
      (SetBoard s row column num).columns = s.columns ∧
      (SetBoard s row column num).moves_without_capture =
        s.moves_without_capture ∧
      (SetBoard s row column num).turn_history_info = s.turn_history_info ∧
      (SetBoard s row column num).board.length = s.board.length := by
  have hlt : row * s.columns + column < s.board.length := by
    rw [hlen]
    exact flat_lt hr hc
  refine ⟨?_, ?_, rfl, rfl, rfl, rfl, rfl, rfl, rfl, rfl, by simp [SetBoard]⟩
  · simp only [BoardAt, SetBoard]
    exact getD_set_self _ _ hlt _ _
  · intro r c hr' hc' hne
    simp only [BoardAt, SetBoard]
    have hne' : row * s.columns + column ≠ r * s.columns + c := by
      by_cases hrr : r = row
      · subst hrr
        have : c ≠ column := by
          intro h
          exact hne (by rw [h])
        omega
      · exact fun h => flat_ne_of_row_ne hc' hc hrr h.symm
    exact getD_set_ne _ hne' _ _

/-- Witness for C10 at a concrete state and cell. -/
theorem setboard_boardat_spec_witness :
    BoardAt (SetBoard exampleChainState 1 2 7) 1 2 = 7 ∧
      BoardAt (SetBoard exampleChainState 1 2 7) 1 1 =
        BoardAt exampleChainState 1 1 :=
  ⟨(setboard_boardat_spec exampleChainState 1 2 7 (by decide) (by decide)
      (by decide)).1,
    (setboard_boardat_spec exampleChainState 1 2 7 (by decide) (by decide)
      (by decide)).2.1 1 1 (by decide) (by decide) (by decide)⟩

/-! ### Claim C9 — CurrentPlayer -/

/-- C9: `CurrentPlayer()` returns the terminal player id whenever
`IsTerminal()` is true regardless of the stored field, returns the stored
field otherwise, and a freshly constructed state's stored current player
is the chance player. -/
theorem current_player_spec :
    (∀ s : TwoZeroFourEightState,
      (IsTerminal s = true → CurrentPlayer s = kTerminalPlayerId) ∧
        (IsTerminal s = false → CurrentPlayer s = s.current_player)) ∧
      ∀ rows columns : Nat,
        (NewInitialState rows columns).current_player = kChancePlayerId := by
  refine ⟨fun s => ⟨fun h => ?_, fun h => ?_⟩, fun rows columns => rfl⟩
  · simp [CurrentPlayer, h]
  · simp [CurrentPlayer, h]

/-- Witness for C9: a terminal state (draw threshold reached) and a
non-terminal one. -/
theorem current_player_spec_witness :
    CurrentPlayer exampleDrawState = kTerminalPlayerId ∧
      CurrentPlayer exampleChainState = exampleChainState.current_player :=
  ⟨(current_player_spec.1 exampleDrawState).1 (by decide),
    (current_player_spec.1 exampleChainState).2 (by decide)⟩

/-! ### Claim C4 — draw by inactivity -/

/-- C4: when the move-without-progress counter reaches the fixed threshold
of 40, the state is terminal with the drawn payoff `{0, 0}`, regardless of
the material on the board. -/
theorem draw_by_inactivity (s : TwoZeroFourEightState)
    (h : kMaxMovesWithoutCapture ≤ s.moves_without_capture) :
    IsTerminal s = true ∧ Returns s = [0, 0] := by
  constructor
  · simp only [IsTerminal, Bool.or_eq_true, decide_eq_true_eq]
    exact Or.inl h
  · simp only [Returns, if_pos h]

/-- Witness for C4: the draw-threshold state still has pieces of both
players on the board yet is a drawn terminal state. -/
theorem draw_by_inactivity_witness :
    kMaxMovesWithoutCapture ≤ exampleDrawState.moves_without_capture ∧
      IsTerminal exampleDrawState = true ∧ Returns exampleDrawState = [0, 0] :=
  ⟨by decide, draw_by_inactivity exampleDrawState (by decide)⟩

/-! ### Claim C6 — action codec round trip and bijectivity -/

/-- C6: decoding any action id produced by `LegalActions()` with the codec
of the current player-kind and re-encoding yields the same id, and each
codec is a total bijection between its structured domain and its id range
for the fixed board size. -/
theorem action_codec_roundtrip (s : TwoZeroFourEightState) :
    (∀ a, a ∈ LegalActions s →
      (s.current_player = kChancePlayerId →
        ChanceActionToSpielAction s (SpielActionToChanceAction s a) = a) ∧
      (s.current_player ≠ kChancePlayerId →
        CheckersActionToSpielAction s (SpielActionToCheckersAction s a) = a)) ∧
    (∀ m : CheckersAction, m.row < s.rows → m.column < s.columns →
      m.direction < 4 → m.move_type < 2 →
      SpielActionToCheckersAction s (CheckersActionToSpielAction s m) = m ∧
      CheckersActionToSpielAction s m < s.rows * s.columns * 8) ∧
    (∀ a, a < s.rows * s.columns * 8 →
      CheckersActionToSpielAction s (SpielActionToCheckersAction s a) = a ∧
      (SpielActionToCheckersAction s a).row < s.rows ∧
      (SpielActionToCheckersAction s a).column < s.columns ∧
      (SpielActionToCheckersAction s a).direction < 4 ∧
      (SpielActionToCheckersAction s a).move_type < 2) ∧
    (∀ m : ChanceAction, m.row < s.rows → m.column < s.columns →
      SpielActionToChanceAction s (ChanceActionToSpielAction s m) = m ∧
      ChanceActionToSpielAction s m < s.rows * s.columns * 2) ∧
    (∀ a, a < s.rows * s.columns * 2 →
      ChanceActionToSpielAction s (SpielActionToChanceAction s a) = a ∧
      (SpielActionToChanceAction s a).row < s.rows ∧
      (SpielActionToChanceAction s a).column < s.columns) := by
  refine ⟨fun a _ => ⟨fun _ => chance_enc_dec s a, fun _ => checkers_enc_dec s a⟩,
    fun m hr hc hd ht => ⟨checkers_dec_enc s m hc hd ht,
      checkers_enc_lt s m hr hc hd ht⟩,
    fun a ha => ⟨checkers_enc_dec s a, checkers_dec_ranges s a ha⟩,
    fun m hr hc => ⟨chance_dec_enc s m hc, chance_enc_lt s m hr hc⟩,
    fun a ha => ⟨chance_enc_dec s a, chance_dec_ranges s a ha⟩⟩

/-- Witness for C6 at a concrete state, legal action, and in-range
structured moves. -/
theorem action_codec_roundtrip_witness :
    CheckersActionToSpielAction exampleChainState
        (SpielActionToCheckersAction exampleChainState 7) = 7 ∧
      SpielActionToCheckersAction exampleChainState
        (CheckersActionToSpielAction exampleChainState ⟨0, 0, 3, 1⟩) =
          ⟨0, 0, 3, 1⟩ ∧
      SpielActionToChanceAction exampleChainState
        (ChanceActionToSpielAction exampleChainState ⟨2, 3, true⟩) =
          ⟨2, 3, true⟩ :=
  ⟨((action_codec_roundtrip exampleChainState).1 7 (by decide)).2 (by decide),
    ((action_codec_roundtrip exampleChainState).2.1 ⟨0, 0, 3, 1⟩ (by decide)
      (by decide) (by decide) (by decide)).1,
    ((action_codec_roundtrip exampleChainState).2.2.2.1 ⟨2, 3, true⟩
      (by decide) (by decide)).1⟩

/-! ### Claim C8 — chance outcome normalization -/

theorem flatMap_pair_snd_sum {α : Type} (l : List α) (f g : α → Nat)
    (p q : ℚ) :
    ((l.flatMap fun x => [(f x, p), (g x, q)]).map Prod.snd).sum =
      l.length * (p + q) := by
  induction l with
  | nil => simp
  | cons x xs ih =>
      simp only [List.flatMap_cons, List.map_append, List.sum_append, ih,
        List.length_cons, List.map_cons, List.map_nil, List.sum_cons,
        List.sum_nil]
      push_cast
      ring

theorem flatMap_pair_fst {α : Type} (l : List α) (f g : α → Nat) (p q : ℚ) :
    ((l.flatMap fun x => [(f x, p), (g x, q)]).map Prod.fst) =
      l.flatMap fun x => [f x, g x] := by
  induction l with
  | nil => simp
  | cons x xs ih =>
      simp only [List.flatMap_cons, List.map_append, ih, List.map_cons,
        List.map_nil]

/-- C8: at every state with at least one empty placement cell, the chance
outcomes form a mapping from chance-action id to probability whose ids
cover exactly every empty cell combined with both placeable tile values,
and whose probabilities sum to 1 (exactly, in the rational model). -/
theorem chance_outcomes_normalized (s : TwoZeroFourEightState)
    (h : 0 < AvailableCellCount s) :
    ((ChanceOutcomes s).map Prod.snd).sum = 1 ∧
      (ChanceOutcomes s).map Prod.fst =
        (AvailableCells s).flatMap (chanceIdsOfCell s) ∧
      ∀ rc, rc ∈ AvailableCells s →
        (ChanceActionToSpielAction s ⟨rc.1, rc.2, false⟩,
            (9 / 10 : ℚ) / AvailableCellCount s) ∈ ChanceOutcomes s ∧
          (ChanceActionToSpielAction s ⟨rc.1, rc.2, true⟩,
            (1 / 10 : ℚ) / AvailableCellCount s) ∈ ChanceOutcomes s := by
  have hk : ((AvailableCellCount s : ℚ)) ≠ 0 := by
    exact_mod_cast Nat.pos_iff_ne_zero.mp h
  refine ⟨?_, ?_, ?_⟩
  · unfold ChanceOutcomes
    rw [flatMap_pair_snd_sum (AvailableCells s)
      (fun rc => ChanceActionToSpielAction s ⟨rc.1, rc.2, false⟩)
      (fun rc => ChanceActionToSpielAction s ⟨rc.1, rc.2, true⟩)]
    show ((AvailableCells s).length : ℚ) * _ = 1
    rw [show (AvailableCells s).length = AvailableCellCount s from rfl]
    field_simp
    ring
  · unfold ChanceOutcomes
    rw [flatMap_pair_fst (AvailableCells s)
      (fun rc => ChanceActionToSpielAction s ⟨rc.1, rc.2, false⟩)
      (fun rc => ChanceActionToSpielAction s ⟨rc.1, rc.2, true⟩)]
    rfl
  · intro rc hrc
    unfold ChanceOutcomes
    constructor <;>
      · rw [List.mem_flatMap]
        exact ⟨rc, hrc, by simp⟩

/-- Witness for C8: a 2×2 board with three empty cells. -/
theorem chance_outcomes_normalized_witness :
    0 < AvailableCellCount (DoApplyAction (NewInitialState 2 2) 0) ∧
      ((ChanceOutcomes (DoApplyAction (NewInitialState 2 2) 0)).map
          Prod.snd).sum = 1 :=
  ⟨by decide,
    (chance_outcomes_normalized (DoApplyAction (NewInitialState 2 2) 0)
      (by decide)).1⟩

/-! ### State-machine reduction and congruence lemmas -/

theorem mem_LegalActions {s : TwoZeroFourEightState} {a : Nat}
    (ha : a ∈ LegalActions s) :
    IsTerminal s = false ∧ a ∈ currentLegalMoves s := by
  unfold LegalActions at ha
  split at ha
  · exact absurd ha (List.not_mem_nil a)
  · next h => exact ⟨Bool.not_eq_true _ ▸ Bool.of_not_eq_true h, ha⟩

theorem dec_checkers_congr {s t : TwoZeroFourEightState} (a : Nat)
    (hc : t.columns = s.columns) :
    SpielActionToCheckersAction t a = SpielActionToCheckersAction s a := by
  unfold SpielActionToCheckersAction
  rw [hc]

theorem dec_chance_congr {s t : TwoZeroFourEightState} (a : Nat)
    (hc : t.columns = s.columns) :
    SpielActionToChanceAction t a = SpielActionToChanceAction s a := by
  unfold SpielActionToChanceAction
  rw [hc]

theorem shiftPos_congr {s t : TwoZeroFourEightState} (d r c k : Nat)
    (hr : t.rows = s.rows) (hc : t.columns = s.columns) :
    shiftPos t d r c k = shiftPos s d r c k := by
  unfold shiftPos
  rw [hr, hc]

theorem captureOk_congr {s t : TwoZeroFourEightState} (m : CheckersAction)
    (hr : t.rows = s.rows) (hc : t.columns = s.columns)
    (hp : t.current_player = s.current_player) (hb : t.board = s.board) :
    captureOk t m = captureOk s m := by
  unfold captureOk BoardAt shiftPos
  rw [hr, hc, hp, hb]

theorem CaptureMoves_congr {s t : TwoZeroFourEightState}
    (hr : t.rows = s.rows) (hc : t.columns = s.columns)
    (hp : t.current_player = s.current_player) (hb : t.board = s.board) :
    CaptureMoves t = CaptureMoves s := by
  unfold CaptureMoves allCheckersMoves
  rw [hr, hc]
  have he : (fun m : CheckersAction => m.move_type == 1 && captureOk t m) =
      fun m => m.move_type == 1 && captureOk s m := by
    funext m
    rw [captureOk_congr m hr hc hp hb]
  rw [he]

theorem CaptureMovesFrom_congr {s t : TwoZeroFourEightState} (r c : Nat)
    (hr : t.rows = s.rows) (hc : t.columns = s.columns)
    (hp : t.current_player = s.current_player) (hb : t.board = s.board) :
    CaptureMovesFrom t r c = CaptureMovesFrom s r c := by
  unfold CaptureMovesFrom
  rw [CaptureMoves_congr hr hc hp hb]

theorem DoApplyAction_chance_eq {s : TwoZeroFourEightState} {a : Nat}
    (hch : (s.current_player == kChancePlayerId) = true) :
    DoApplyAction s a = applyChance s a := by
  unfold DoApplyAction applyChance
  rw [hch]
  rfl

theorem DoApplyAction_normal_eq {s : TwoZeroFourEightState} {a : Nat}
    {m : CheckersAction} {er ec : Nat}
    (hpb : (s.current_player == kChancePlayerId) = false)
    (hm : SpielActionToCheckersAction s a = m)
    (hmt : (m.move_type == 0) = true)
    (hs1 : shiftPos s m.direction m.row m.column 1 = some (er, ec)) :
    DoApplyAction s a = applyNormal s a m er ec := by
  unfold DoApplyAction
  rw [hm]
  split
  · next hch => rw [hpb] at hch; exact absurd hch (by simp)
  · dsimp only
    rw [hmt]
    simp only [if_true]
    rw [hs1]
    rfl

theorem DoApplyAction_capture_eq {s : TwoZeroFourEightState} {a : Nat}
    {m : CheckersAction} {mr mc er ec : Nat}
    (hpb : (s.current_player == kChancePlayerId) = false)
    (hm : SpielActionToCheckersAction s a = m)
    (hmt : (m.move_type == 0) = false)
    (hs1 : shiftPos s m.direction m.row m.column 1 = some (mr, mc))
    (hs2 : shiftPos s m.direction m.row m.column 2 = some (er, ec)) :
    DoApplyAction s a = applyCapture s a m mr mc er ec := by
  unfold DoApplyAction
  rw [hm]
  split
  · next hch => rw [hpb] at hch; exact absurd hch (by simp)
  · dsimp only
    rw [hmt]
    simp only [Bool.false_eq_true, if_false]
    rw [hs1, hs2]
    rfl

theorem UndoAction_chance_eq (s : TwoZeroFourEightState) (player : Int)
    (a : Nat) (thi : TurnHistoryInfo) (rest : List TurnHistoryInfo)
    (hh : s.turn_history_info = thi :: rest)
    (hch : (player == kChancePlayerId) = true) :
    UndoAction s player a =
      { SetBoard s (SpielActionToChanceAction s a).row
          (SpielActionToChanceAction s a).column kEmptyCell with
        current_player := kChancePlayerId,
        outcome := kInvalidPlayer,
        multiple_jump_piece := kNoMultipleJumpsPossible,
        turn_history_info := rest } := by
  unfold UndoAction
  rw [hh]
  dsimp only
  rw [hch]
  rfl

theorem UndoAction_normal_eq (s : TwoZeroFourEightState) (player : Int)
    (a : Nat) (m : CheckersAction) (er ec : Nat) (thi : TurnHistoryInfo)
    (rest : List TurnHistoryInfo)
    (hh : s.turn_history_info = thi :: rest)
    (hpb : (player == kChancePlayerId) = false)
    (hm : SpielActionToCheckersAction s a = m)
    (hmt : (m.move_type == 0) = true)
    (hs1 : shiftPos s m.direction m.row m.column 1 = some (er, ec)) :
    UndoAction s player a =
      { SetBoard (SetBoard s er ec kEmptyCell) m.row m.column
          (makePiece player thi.player_piece_type) with
        current_player := player,
        outcome := kInvalidPlayer,
        multiple_jump_piece := kNoMultipleJumpsPossible,
        moves_without_capture := s.moves_without_capture - 1,
        turn_history_info := rest } := by
  unfold UndoAction
  rw [hh]
  dsimp only
  rw [hpb]
  simp only [Bool.false_eq_true, if_false]
  rw [hm, hmt]
  simp only [if_true]
  rw [hs1]

theorem UndoAction_capture_eq (s : TwoZeroFourEightState) (player : Int)
    (a : Nat) (m : CheckersAction) (mr mc er ec : Nat)
    (thi : TurnHistoryInfo) (rest : List TurnHistoryInfo)
    (hh : s.turn_history_info = thi :: rest)
    (hpb : (player == kChancePlayerId) = false)
    (hm : SpielActionToCheckersAction s a = m)
    (hmt : (m.move_type == 0) = false)
    (hs1 : shiftPos s m.direction m.row m.column 1 = some (mr, mc))
    (hs2 : shiftPos s m.direction m.row m.column 2 = some (er, ec)) :
    UndoAction s player a =
      { SetBoard (SetBoard (SetBoard s er ec kEmptyCell) mr mc
          (makePiece (opponentOf player) thi.captured_piece_type))
          m.row m.column (makePiece player thi.player_piece_type) with
        current_player := player,
        outcome := kInvalidPlayer,
        multiple_jump_piece := kNoMultipleJumpsPossible,
        moves_without_capture := histCounter rest,
        turn_history_info := rest } := by
  unfold UndoAction
  rw [hh]
  dsimp only
  rw [hpb]
  simp only [Bool.false_eq_true, if_false]
  rw [hm, hmt]
  simp only [Bool.false_eq_true, if_false]
  rw [hs1, hs2]

/-! ### Board-restore algebra -/

theorem restore_normal_board (b : List Int) (o dI : Nat) (vo np : Int)
    (ho : o < b.length) (hd : dI < b.length) (hne : dI ≠ o)
    (hvo : b.getD o 0 = vo) (hvd : b.getD dI 0 = 0) :
    (((b.set o 0).set dI np).set dI 0).set o vo = b := by
  rw [List.set_set]
  rw [List.set_comm _ _ _ hne]
  rw [List.set_set]
  rw [← hvo, set_getD_self b o ho 0]
  rw [← hvd, set_getD_self b dI hd 0]

theorem restore_capture_board (b : List Int) (o mI dI : Nat)
    (vo vm np : Int) (ho : o < b.length) (hm : mI < b.length)
    (hd : dI < b.length) (h1 : mI ≠ o) (h2 : dI ≠ o) (h3 : mI ≠ dI)
    (hvo : b.getD o 0 = vo) (hvm : b.getD mI 0 = vm)
    (hvd : b.getD dI 0 = 0) :
    (((((b.set o 0).set mI 0).set dI np).set dI 0).set mI vm).set o vo =
      b := by
  rw [List.set_set]
  rw [List.set_comm _ _ (b.set o 0) h3]
  rw [List.set_set]
  rw [List.set_comm _ _ _ h1]
  rw [List.set_comm _ _ _ h2]
  rw [List.set_set]
  rw [← hvo, set_getD_self b o ho 0]
  rw [← hvd, set_getD_self b dI hd 0]
  rw [← hvm, set_getD_self b mI hm 0]

/-! ### Claim C2 — mandatory capture -/

theorem captureMoves_not_isEmpty {s : TwoZeroFourEightState}
    (hcap : CaptureMoves s ≠ []) : (CaptureMoves s).isEmpty = false := by
  cases hie : (CaptureMoves s).isEmpty
  · rfl
  · exact absurd (List.isEmpty_iff.mp hie) hcap

/-- When a capture exists, every legal action of a player node encodes a
capture move (whether or not a multi-jump continuation is pending). -/
theorem legal_capture_origin {s : TwoZeroFourEightState} {a : Nat}
    (hpb : (s.current_player == kChancePlayerId) = false)
    (hcap : CaptureMoves s ≠ []) (ha : a ∈ currentLegalMoves s) :
    ∃ m, m ∈ CaptureMoves s ∧ a = CheckersActionToSpielAction s m := by
  unfold currentLegalMoves at ha
  rw [hpb] at ha
  simp only [Bool.false_eq_true, if_false] at ha
  by_cases hj : (s.multiple_jump_piece != kNoMultipleJumpsPossible) = true
  · rw [if_pos hj] at ha
    simp only [List.mem_map, List.mem_filter] at ha
    obtain ⟨m, ⟨hm, _⟩, he⟩ := ha
    exact ⟨m, hm, he.symm⟩
  · rw [if_neg hj, captureMoves_not_isEmpty hcap] at ha
    simp only [Bool.not_false, if_true, List.mem_map] at ha
    obtain ⟨m, hm, he⟩ := ha
    exact ⟨m, hm, he.symm⟩

/-- C2 (amended): in a non-terminal player state where a capture exists,
`LegalActions()` contains zero non-capture moves; with no pending
multi-jump cursor it is exactly the capture-move list, and with the
cursor pending on cell (jr, jc) it is exactly the captures originating
from that one cell. -/
theorem mandatory_capture (s : TwoZeroFourEightState)
    (hp : s.current_player = 0 ∨ s.current_player = 1)
    (hterm : IsTerminal s = false) (hcap : CaptureMoves s ≠ []) :
    (s.multiple_jump_piece = kNoMultipleJumpsPossible →
      LegalActions s = (CaptureMoves s).map (CheckersActionToSpielAction s)) ∧
    (∀ jr jc : Nat, jr < s.rows → jc < s.columns →
      s.multiple_jump_piece = ((jr * s.columns + jc : Nat) : Int) →
      LegalActions s =
        (CaptureMovesFrom s jr jc).map (CheckersActionToSpielAction s)) ∧
    ∀ a, a ∈ LegalActions s →
      (SpielActionToCheckersAction s a).move_type = 1 := by
  have hpb : (s.current_player == kChancePlayerId) = false := by
    rcases hp with h | h <;> rw [h] <;> decide
  have hleg : LegalActions s = currentLegalMoves s := by
    unfold LegalActions
    rw [hterm]
    simp
  refine ⟨?_, ?_, ?_⟩
  · intro hmj
    rw [hleg]
    unfold currentLegalMoves
    rw [hpb]
    simp only [Bool.false_eq_true, if_false]
    rw [hmj]
    simp only [bne_self_eq_false, Bool.false_eq_true, if_false]
    rw [captureMoves_not_isEmpty hcap]
    simp only [Bool.not_false, if_true]
  · intro jr jc _ hjc hcur
    rw [hleg]
    unfold currentLegalMoves
    rw [hpb]
    simp only [Bool.false_eq_true, if_false]
    have hbne : (s.multiple_jump_piece != kNoMultipleJumpsPossible) =
        true := by
      rw [hcur]
      simp only [bne_iff_ne, ne_eq, kNoMultipleJumpsPossible]
      omega
    rw [if_pos hbne]
    unfold CaptureMovesFrom
    congr 1
    apply List.filter_congr
    intro m hm
    obtain ⟨hall, _, _⟩ := mem_CaptureMoves.mp hm
    obtain ⟨_, hc, _, _⟩ := mem_allCheckersMoves.mp hall
    rw [hcur, Bool.eq_iff_iff]
    simp only [beq_iff_eq, Bool.and_eq_true, Int.natCast_inj]
    constructor
    · intro hf
      exact flat_inj hc hjc hf
    · rintro ⟨h1, h2⟩
      rw [h1, h2]
  · intro a ha
    rw [hleg] at ha
    obtain ⟨m, hm, rfl⟩ := legal_capture_origin hpb hcap ha
    obtain ⟨hall, hmt, _⟩ := mem_CaptureMoves.mp hm
    obtain ⟨hr, hc, hd, ht⟩ := mem_allCheckersMoves.mp hall
    rw [checkers_dec_enc s m hc hd ht, hmt]

/-- Counterexample to C2 as frozen: in the mid-multi-jump state (which
satisfies the reachability invariant) captures exist for the current
player, yet `LegalActions()` is not the whole capture-move set — it holds
only the cursor piece's capture, excluding the other piece's capture. -/
theorem mandatory_capture_cex :
    Inv exampleMidJumpState ∧
      exampleMidJumpState.current_player = 0 ∧
      IsTerminal exampleMidJumpState = false ∧
      CaptureMoves exampleMidJumpState ≠ [] ∧
      LegalActions exampleMidJumpState ≠
        (CaptureMoves exampleMidJumpState).map
          (CheckersActionToSpielAction exampleMidJumpState) := by
  refine ⟨by decide, rfl, by decide, by decide, by decide⟩

/-- Witness for C2 (amended): the cursor-free crowning position, where
the legal set is the full capture list, and the mid-multi-jump position
with the cursor on (1,1), where it is exactly that cell's captures. -/
theorem mandatory_capture_witness :
    LegalActions exampleCrownState =
      (CaptureMoves exampleCrownState).map
        (CheckersActionToSpielAction exampleCrownState) ∧
      LegalActions exampleMidJumpState =
        (CaptureMovesFrom exampleMidJumpState 1 1).map
          (CheckersActionToSpielAction exampleMidJumpState) ∧
      (SpielActionToCheckersAction exampleCrownState 47).move_type = 1 :=
  ⟨(mandatory_capture exampleCrownState (Or.inl rfl) (by decide)
      (by decide)).1 rfl,
    (mandatory_capture exampleMidJumpState (Or.inl rfl) (by decide)
      (by decide)).2.1 1 1 (by decide) (by decide) (by decide),
    (mandatory_capture exampleCrownState (Or.inl rfl) (by decide)
      (by decide)).2.2 47 (by decide)⟩

/-! ### Claim C5 — multi-jump chain continuation -/

theorem ne_nil_isEmpty_false {α} {l : List α} (h : l ≠ []) :
    l.isEmpty = false := by
  cases hie : l.isEmpty
  · rfl
  · exact absurd (List.isEmpty_iff.mp hie) h

theorem enc_checkers_congr {s t : TwoZeroFourEightState}
    (m : CheckersAction) (hc : t.columns = s.columns) :
    CheckersActionToSpielAction t m = CheckersActionToSpielAction s m := by
  unfold CheckersActionToSpielAction
  rw [hc]

/-- C5 (amended): after a legal capture whose landing does not promote the
piece and leaves a further capture for the mover available from the
landing cell, the current player is unchanged, the pending-capture cursor
is the landing cell's flat index, and every next legal action is a capture
from that cell. -/
theorem chain_continuation (s : TwoZeroFourEightState) (a : Nat)
    (m : CheckersAction) (er ec : Nat)
    (hp : s.current_player = 0 ∨ s.current_player = 1)
    (ha : a ∈ LegalActions s)
    (hm : SpielActionToCheckersAction s a = m)
    (hmt : m.move_type = 1)
    (hdest : shiftPos s m.direction m.row m.column 2 = some (er, ec))
    (hnocrown : CrownStateIfLastRowReached s er (BoardAt s m.row m.column) =
      BoardAt s m.row m.column)
    (hfurther : CaptureMovesFrom
      { DoApplyAction s a with current_player := s.current_player }
        er ec ≠ []) :
    (DoApplyAction s a).current_player = s.current_player ∧
      (DoApplyAction s a).multiple_jump_piece =
        ((er * s.columns + ec : Nat) : Int) ∧
      ∀ b, b ∈ LegalActions (DoApplyAction s a) →
        (SpielActionToCheckersAction s b).move_type = 1 ∧
          (SpielActionToCheckersAction s b).row = er ∧
          (SpielActionToCheckersAction s b).column = ec := by
  obtain ⟨hterm, hcur⟩ := mem_LegalActions ha
  have hpb : (s.current_player == kChancePlayerId) = false := by
    rcases hp with h | h <;> rw [h] <;> decide
  obtain ⟨mm, hmm, hae⟩ := mem_currentLegalMoves_player hpb hcur
  have hall : mm ∈ allCheckersMoves s := by
    rcases hmm with h | h
    · exact (mem_CaptureMoves.mp h).1
    · exact (mem_NormalMoves.mp h).1
  obtain ⟨hrb, hcb, hdb, htb⟩ := mem_allCheckersMoves.mp hall
  have hdecm : SpielActionToCheckersAction s a = mm := by
    rw [hae]
    exact checkers_dec_enc s mm hcb hdb htb
  have hmeq : m = mm := by rw [← hdecm, hm]
  subst hmeq
  have hcapm : m ∈ CaptureMoves s := by
    rcases hmm with h | h
    · exact h
    · exact absurd hmt (by rw [(mem_NormalMoves.mp h).2.1]; decide)
  obtain ⟨_, _, hok⟩ := mem_CaptureMoves.mp hcapm
  obtain ⟨howner, mr, mc, er', ec', hs1, hs2, hmid, hdst⟩ :=
    captureOk_elim hok
  have heq : (some (er', ec') : Option (Nat × Nat)) = some (er, ec) := by
    rw [← hs2, hdest]
  simp only [Option.some.injEq, Prod.mk.injEq] at heq
  obtain ⟨rfl, rfl⟩ := heq
  have hmt0 : (m.move_type == 0) = false := by simp [hmt]
  have happly := DoApplyAction_capture_eq hpb hdecm hmt0 hs1 hs2
  have hcrown : (CrownStateIfLastRowReached s er'
      (BoardAt s m.row m.column) == BoardAt s m.row m.column) = true := by
    rw [hnocrown]
    exact beq_self_eq_true _
  have hrowsT : ({ DoApplyAction s a with
      current_player := s.current_player } :
        TwoZeroFourEightState).rows =
      (captureMidState s a m mr mc er' ec').rows := by
    rw [happly]
    unfold applyCapture
    split <;> rfl
  have hcolsT : ({ DoApplyAction s a with
      current_player := s.current_player } :
        TwoZeroFourEightState).columns =
      (captureMidState s a m mr mc er' ec').columns := by
    rw [happly]
    unfold applyCapture
    split <;> rfl
  have hplayerT : ({ DoApplyAction s a with
      current_player := s.current_player } :
        TwoZeroFourEightState).current_player =
      (captureMidState s a m mr mc er' ec').current_player := by
    rfl
  have hboardT : ({ DoApplyAction s a with
      current_player := s.current_player } :
        TwoZeroFourEightState).board =
      (captureMidState s a m mr mc er' ec').board := by
    rw [happly]
    unfold applyCapture
    split <;> rfl
  have hfurther2 :
      CaptureMovesFrom (captureMidState s a m mr mc er' ec') er' ec' ≠
        [] := by
    rw [← CaptureMovesFrom_congr er' ec' hrowsT hcolsT hplayerT hboardT]
    exact hfurther
  have hcond : (CrownStateIfLastRowReached s er'
        (BoardAt s m.row m.column) == BoardAt s m.row m.column &&
      !(CaptureMovesFrom (captureMidState s a m mr mc er' ec')
          er' ec').isEmpty) = true := by
    rw [hcrown, ne_nil_isEmpty_false hfurther2]
    rfl
  have happly2 : DoApplyAction s a =
      { captureMidState s a m mr mc er' ec' with
        multiple_jump_piece := ((er' * s.columns + ec' : Nat) : Int) } := by
    rw [happly]
    unfold applyCapture
    split
    · rfl
    · next hcf => exact absurd hcond hcf
  refine ⟨by rw [happly2]; rfl, by rw [happly2], ?_⟩
  intro b hb
  rw [happly2] at hb
  obtain ⟨hterm2, hcur2⟩ := mem_LegalActions hb
  have hpb2 : ((({ captureMidState s a m mr mc er' ec' with
      multiple_jump_piece := ((er' * s.columns + ec' : Nat) : Int) }) :
        TwoZeroFourEightState).current_player == kChancePlayerId) =
      false := hpb
  unfold currentLegalMoves at hcur2
  rw [hpb2] at hcur2
  simp only [Bool.false_eq_true, if_false] at hcur2
  have hjp : ((({ captureMidState s a m mr mc er' ec' with
      multiple_jump_piece := ((er' * s.columns + ec' : Nat) : Int) }) :
        TwoZeroFourEightState).multiple_jump_piece !=
      kNoMultipleJumpsPossible) = true := by
    show (((er' * s.columns + ec' : Nat) : Int) !=
      kNoMultipleJumpsPossible) = true
    simp only [bne_iff_ne, ne_eq, kNoMultipleJumpsPossible]
    omega
  rw [if_pos hjp] at hcur2
  simp only [List.mem_map, List.mem_filter] at hcur2
  obtain ⟨m2, ⟨hm2cap, hm2idx⟩, henc⟩ := hcur2
  obtain ⟨hall2, hmt2, _⟩ := mem_CaptureMoves.mp hm2cap
  obtain ⟨hr2, hc2, hd2, ht2⟩ := mem_allCheckersMoves.mp hall2
  have hColsEq : (({ captureMidState s a m mr mc er' ec' with
      multiple_jump_piece := ((er' * s.columns + ec' : Nat) : Int) }) :
        TwoZeroFourEightState).columns = s.columns := rfl
  have hbdec : SpielActionToCheckersAction s b = m2 := by
    rw [← henc, enc_checkers_congr m2 hColsEq]
    exact checkers_dec_enc s m2 (hColsEq ▸ hc2) hd2 ht2
  obtain ⟨herb, hecb⟩ := shiftPos_bounds hrb hcb hs2
  have hidx : m2.row * s.columns + m2.column = er' * s.columns + ec' := by
    have := hm2idx
    simp only [beq_iff_eq] at this
    exact_mod_cast this
  obtain ⟨hre, hce⟩ :=
    flat_inj (C := s.columns) (hColsEq ▸ hc2) hecb hidx
  exact ⟨by rw [hbdec, hmt2], by rw [hbdec, hre], by rw [hbdec, hce]⟩

/-- Counterexample to C5 as frozen: in the crowning position the capture
from (1,0) lands on the farthest row and a further capture for the mover
remains available from the landing cell (3,2), yet the player is advanced
and no pending-capture cursor is set, because the landing promoted the
piece. -/
theorem chain_continuation_cex :
    Inv exampleCrownState ∧
      47 ∈ LegalActions exampleCrownState ∧
      (SpielActionToCheckersAction exampleCrownState 47).move_type = 1 ∧
      shiftPos exampleCrownState 3 1 0 2 = some (3, 2) ∧
      CaptureMovesFrom { DoApplyAction exampleCrownState 47 with
        current_player := exampleCrownState.current_player } 3 2 ≠ [] ∧
      (DoApplyAction exampleCrownState 47).current_player ≠
        exampleCrownState.current_player ∧
      (DoApplyAction exampleCrownState 47).multiple_jump_piece =
        kNoMultipleJumpsPossible := by
  decide

/-- Witness for C5 (amended) at the non-promoting chain position. -/
theorem chain_continuation_witness :
    (DoApplyAction exampleChainState 7).current_player =
        exampleChainState.current_player ∧
      (DoApplyAction exampleChainState 7).multiple_jump_piece =
        ((2 * exampleChainState.columns + 2 : Nat) : Int) ∧
      ∀ b, b ∈ LegalActions (DoApplyAction exampleChainState 7) →
        (SpielActionToCheckersAction exampleChainState b).move_type = 1 ∧
          (SpielActionToCheckersAction exampleChainState b).row = 2 ∧
          (SpielActionToCheckersAction exampleChainState b).column = 2 :=
  chain_continuation exampleChainState 7 ⟨0, 0, 3, 1⟩ 2 2 (Or.inl rfl)
    (by decide) (by decide) rfl (by decide) (by decide) (by decide)

end TwoZeroFourEight

namespace Kalah

/-! ### Kalah sowing lemmas -/

theorem playerStore_lt (p : Nat) : playerStore p < kTotalPits := by
  unfold playerStore kTotalPits
  split <;> omega

theorem NextHouse_lt (p h : Nat) : NextHouse p h < kTotalPits := by
  unfold NextHouse
  dsimp only
  split
  · exact Nat.mod_lt _ (by decide)
  · exact Nat.mod_lt _ (by decide)

theorem NextHouse_ne_opp (p : Nat) (hp : p < 2) (h : Nat) :
    NextHouse p h ≠ opponentStore p := by
  unfold NextHouse
  dsimp only
  by_cases he : (((h + 1) % kTotalPits) == opponentStore p) = true
  · rw [if_pos he]
    simp only [beq_iff_eq] at he
    rw [he]
    interval_cases p <;> decide
  · rw [if_neg he]
    simpa using he

theorem sow_length (p : Nat) (n : Nat) :
    ∀ pos b, (sow p b pos n).1.length = b.length := by
  induction n with
  | zero => intro pos b; rfl
  | succ n ih =>
      intro pos b
      have hstep : sow p b pos (n + 1) =
          sow p (b.set (NextHouse p pos)
            (b.getD (NextHouse p pos) 0 + 1)) (NextHouse p pos) n := rfl
      rw [hstep, ih]
      simp

theorem sow_last_lt (p : Nat) (n : Nat) :
    ∀ pos b, pos < kTotalPits → (sow p b pos n).2 < kTotalPits := by
  induction n with
  | zero => intro pos b hpos; exact hpos
  | succ n ih =>
      intro pos b _
      have hstep : sow p b pos (n + 1) =
          sow p (b.set (NextHouse p pos)
            (b.getD (NextHouse p pos) 0 + 1)) (NextHouse p pos) n := rfl
      rw [hstep]
      exact ih _ _ (NextHouse_lt p pos)

theorem sow_getD_opp (p : Nat) (hp : p < 2) (n : Nat) :
    ∀ pos b, (sow p b pos n).1.getD (opponentStore p) 0 =
      b.getD (opponentStore p) 0 := by
  induction n with
  | zero => intro pos b; rfl
  | succ n ih =>
      intro pos b
      have hstep : sow p b pos (n + 1) =
          sow p (b.set (NextHouse p pos)
            (b.getD (NextHouse p pos) 0 + 1)) (NextHouse p pos) n := rfl
      rw [hstep, ih]
      exact getD_set_ne b (NextHouse_ne_opp p hp pos) _ _

theorem sow_getD_mono (p : Nat) (n : Nat) :
    ∀ pos b (i : Nat), b.getD i 0 ≤ (sow p b pos n).1.getD i 0 := by
  induction n with
  | zero => intro pos b i; exact Nat.le_refl _
  | succ n ih =>
      intro pos b i
      have hstep : sow p b pos (n + 1) =
          sow p (b.set (NextHouse p pos)
            (b.getD (NextHouse p pos) 0 + 1)) (NextHouse p pos) n := rfl
      rw [hstep]
      refine Nat.le_trans ?_ (ih (NextHouse p pos) _ i)
      by_cases hi : NextHouse p pos = i
      · subst hi
        by_cases hlt : NextHouse p pos < b.length
        · rw [getD_set_self b _ hlt]
          omega
        · rw [List.set_eq_of_length_le (by omega)]
      · rw [getD_set_ne b hi]

theorem sow_sum (p : Nat) (n : Nat) :
    ∀ pos b, pos < kTotalPits → b.length = kTotalPits →
      (sow p b pos n).1.sum = b.sum + n := by
  induction n with
  | zero => intro pos b _ _; rfl
  | succ n ih =>
      intro pos b _ hlen
      have hstep : sow p b pos (n + 1) =
          sow p (b.set (NextHouse p pos)
            (b.getD (NextHouse p pos) 0 + 1)) (NextHouse p pos) n := rfl
      rw [hstep, ih _ _ (NextHouse_lt p pos) (by simp [hlen])]
      have hs := sum_set_nat b (NextHouse p pos)
        (by rw [hlen]; exact NextHouse_lt p pos)
        (b.getD (NextHouse p pos) 0 + 1)
      omega

theorem storeDist_zero_iff (p : Nat) (hp : p < 2) :
    ∀ pos, pos < kTotalPits → (storeDist p pos = 0 ↔ pos = playerStore p) := by
  interval_cases p <;> decide

theorem storeDist_next (p : Nat) (hp : p < 2) :
    ∀ pos, pos < kTotalPits → pos ≠ playerStore p →
      storeDist p (NextHouse p pos) < storeDist p pos := by
  interval_cases p <;> decide

theorem isOwnHouse_lt (p h : Nat) (hh : isOwnHouse p h = true) :
    h < kTotalPits := by
  unfold isOwnHouse at hh
  split at hh <;> simp only [Bool.and_eq_true, decide_eq_true_eq] at hh <;>
    · unfold kTotalPits
      omega

theorem ownHouse_facts (p : Nat) (hp : p < 2) :
    ∀ h, h < kTotalPits → isOwnHouse p h = true →
      h ≠ opponentStore p ∧ h ≠ playerStore p ∧
        storeDist p h = distToStore p h ∧ 1 ≤ distToStore p h ∧
        oppositeHouse h < kTotalPits ∧
        oppositeHouse h ≠ opponentStore p ∧
        oppositeHouse h ≠ playerStore p ∧ oppositeHouse h ≠ h := by
  interval_cases p <;> decide

theorem lastOwn_facts (p : Nat) (hp : p < 2) :
    ∀ h, h < kTotalPits → isOwnHouse p h = true →
      playerStore p ≠ h ∧ playerStore p ≠ oppositeHouse h ∧
        oppositeHouse h ≠ h ∧ opponentStore p ≠ h ∧
        opponentStore p ≠ oppositeHouse h ∧
        opponentStore p ≠ playerStore p := by
  interval_cases p <;> decide

theorem sow_store_reach (p : Nat) (hp : p < 2) (n : Nat) :
    ∀ pos b, pos < kTotalPits → b.length = kTotalPits →
      1 ≤ storeDist p pos → storeDist p pos ≤ n →
      b.getD (playerStore p) 0 + 1 ≤
        (sow p b pos n).1.getD (playerStore p) 0 := by
  induction n with
  | zero => intro pos b _ _ h1 h2; omega
  | succ n ih =>
      intro pos b hpos hlen h1 h2
      have hstep : sow p b pos (n + 1) =
          sow p (b.set (NextHouse p pos)
            (b.getD (NextHouse p pos) 0 + 1)) (NextHouse p pos) n := rfl
      rw [hstep]
      by_cases hps : NextHouse p pos = playerStore p
      · have hst : (b.set (NextHouse p pos)
            (b.getD (NextHouse p pos) 0 + 1)).getD (playerStore p) 0 =
            b.getD (playerStore p) 0 + 1 := by
          rw [← hps]
          exact getD_set_self b _ (by rw [hlen]; exact NextHouse_lt p pos) _ _
        have hmono := sow_getD_mono p n (NextHouse p pos)
          (b.set (NextHouse p pos) (b.getD (NextHouse p pos) 0 + 1))
          (playerStore p)
        omega
      · have hpos' : pos ≠ playerStore p := by
          intro he
          rw [(storeDist_zero_iff p hp pos hpos).mpr he] at h1
          omega
        have hlt : storeDist p (NextHouse p pos) < storeDist p pos :=
          storeDist_next p hp pos hpos hpos'
        have h1' : 1 ≤ storeDist p (NextHouse p pos) := by
          rcases Nat.eq_zero_or_pos (storeDist p (NextHouse p pos)) with h0 | h0
          · exact absurd ((storeDist_zero_iff p hp _
              (NextHouse_lt p pos)).mp h0) hps
          · exact h0
        have hkeep : (b.set (NextHouse p pos)
            (b.getD (NextHouse p pos) 0 + 1)).getD (playerStore p) 0 =
            b.getD (playerStore p) 0 := getD_set_ne b hps _ _
        have := ih (NextHouse p pos)
          (b.set (NextHouse p pos) (b.getD (NextHouse p pos) 0 + 1))
          (NextHouse_lt p pos) (by simp [hlen]) h1' (by omega)
        omega

/-! ### Claim C7 — sowing store rules -/

/-- C7: for every board and every legal sowing choice (a non-empty house
of the mover), sowing never changes the opponent's store; a sowing count
long enough to reach the mover's own store strictly increases that store;
and the total number of seeds on the board is conserved (each sown pit
receives exactly one seed per visit, in the fixed skip-the-opponent-store
cyclic order). -/
theorem kalah_sowing_stores (p : Nat) (b : List Nat) (h : Nat)
    (hp : p < 2) (hlen : b.length = kTotalPits)
    (hown : isOwnHouse p h = true) (hne : b.getD h 0 ≠ 0) :
    (DoApplyAction p b h).getD (opponentStore p) 0 =
        b.getD (opponentStore p) 0 ∧
      (distToStore p h ≤ b.getD h 0 →
        b.getD (playerStore p) 0 + 1 ≤
          (DoApplyAction p b h).getD (playerStore p) 0) ∧
      (DoApplyAction p b h).sum = b.sum := by
  have hh14 : h < kTotalPits := isOwnHouse_lt p h hown
  obtain ⟨hhopp, hhstore, hsd, hd1, _, _, _, _⟩ :=
    ownHouse_facts p hp h hh14 hown
  have hlen1 : (b.set h 0).length = kTotalPits := by simp [hlen]
  unfold DoApplyAction
  dsimp only
  rcases hsow : sow p (b.set h 0) h (b.getD h 0) with ⟨b2, last⟩
  dsimp only
  have hlast : last < kTotalPits := by
    have := sow_last_lt p (b.getD h 0) h (b.set h 0) hh14
    rw [hsow] at this
    exact this
  have hb2len : b2.length = kTotalPits := by
    have := sow_length p (b.getD h 0) h (b.set h 0)
    rw [hsow] at this
    dsimp at this
    rw [this, hlen1]
  have hopp2 : b2.getD (opponentStore p) 0 = b.getD (opponentStore p) 0 := by
    have := sow_getD_opp p hp (b.getD h 0) h (b.set h 0)
    rw [hsow] at this
    dsimp at this
    rw [this]
    exact getD_set_ne b hhopp _ _
  have hsum2 : b2.sum = b.sum := by
    have hss := sow_sum p (b.getD h 0) h (b.set h 0) hh14 hlen1
    rw [hsow] at hss
    dsimp at hss
    have h1s := sum_set_nat b h (by rw [hlen]; exact hh14) 0
    omega
  have hkeepstore : (b.set h 0).getD (playerStore p) 0 =
      b.getD (playerStore p) 0 := getD_set_ne b hhstore _ _
  have hmono2 : b.getD (playerStore p) 0 ≤ b2.getD (playerStore p) 0 := by
    have := sow_getD_mono p (b.getD h 0) h (b.set h 0) (playerStore p)
    rw [hsow] at this
    dsimp at this
    omega
  have hstore2 : distToStore p h ≤ b.getD h 0 →
      b.getD (playerStore p) 0 + 1 ≤ b2.getD (playerStore p) 0 := by
    intro hcond
    have := sow_store_reach p hp (b.getD h 0) h (b.set h 0) hh14 hlen1
      (by rw [hsd]; exact hd1) (by rw [hsd]; exact hcond)
    rw [hsow] at this
    dsimp at this
    omega
  by_cases hcap : (isOwnHouse p last && b2.getD last 0 == 1 &&
      !(b2.getD (oppositeHouse last) 0 == 0)) = true
  · rw [if_pos hcap]
    simp only [Bool.and_eq_true, beq_iff_eq, Bool.not_eq_eq_eq_not,
      Bool.not_true, beq_eq_false_iff_ne, ne_eq] at hcap
    obtain ⟨⟨hcapown, hcap1⟩, hcapopp⟩ := hcap
    obtain ⟨hlopp, hlstore, _, _, hlopplt, hloppne, hloppstne, hloppself⟩ :=
      ownHouse_facts p hp last hlast hcapown
    have hstlt : playerStore p < b2.length := by
      rw [hb2len]
      exact playerStore_lt p
    have hl1 : (b2.set last 0).length = kTotalPits := by simp [hb2len]
    have hl2 : ((b2.set last 0).set (oppositeHouse last) 0).length =
        kTotalPits := by simp [hb2len]
    refine ⟨?_, ?_, ?_⟩
    · rw [getD_set_ne _ (show playerStore p ≠ opponentStore p by
        exact fun he =>
          (lastOwn_facts p hp last hlast hcapown).2.2.2.2.2 he.symm) _ _]
      rw [getD_set_ne _ (fun he => hloppne he) _ _]
      rw [getD_set_ne _ (fun he => hlopp he) _ _]
      exact hopp2
    · intro _
      rw [getD_set_self _ _ (by rw [hl2]; exact playerStore_lt p) _ _]
      omega
    · have hs1 := sum_set_nat b2 last (by rw [hb2len]; exact hlast) 0
      have hs2 := sum_set_nat (b2.set last 0) (oppositeHouse last)
        (by rw [hl1]; exact hlopplt) 0
      have hs3 := sum_set_nat ((b2.set last 0).set (oppositeHouse last) 0)
        (playerStore p) (by rw [hl2]; exact playerStore_lt p)
        (b2.getD (playerStore p) 0 + 1 + b2.getD (oppositeHouse last) 0)
      have hg1 : (b2.set last 0).getD (oppositeHouse last) 0 =
          b2.getD (oppositeHouse last) 0 :=
        getD_set_ne b2 (fun he => hloppself he.symm) _ _
      have hg2 : ((b2.set last 0).set (oppositeHouse last) 0).getD
          (playerStore p) 0 = b2.getD (playerStore p) 0 := by
        rw [getD_set_ne _ (fun he => hloppstne he) _ _]
        exact getD_set_ne b2 (fun he => hlstore he) _ _
      omega
  · rw [if_neg hcap]
    exact ⟨hopp2, hstore2, hsum2⟩

/-- Witness for C7: the src test board `{0,1,0,0,0,0,8,0,1,0,0,0,0,0}`
with player 0 sowing 8 seeds from house 6 (the store-skip test). -/
theorem kalah_sowing_stores_witness :
    (DoApplyAction 0 [0,1,0,0,0,0,8,0,1,0,0,0,0,0] 6).getD
        (opponentStore 0) 0 =
      ([0,1,0,0,0,0,8,0,1,0,0,0,0,0] : List Nat).getD (opponentStore 0) 0 ∧
      (distToStore 0 6 ≤ ([0,1,0,0,0,0,8,0,1,0,0,0,0,0] : List Nat).getD 6 0 →
        ([0,1,0,0,0,0,8,0,1,0,0,0,0,0] : List Nat).getD (playerStore 0) 0 + 1 ≤
          (DoApplyAction 0 [0,1,0,0,0,0,8,0,1,0,0,0,0,0] 6).getD
            (playerStore 0) 0) ∧
      (DoApplyAction 0 [0,1,0,0,0,0,8,0,1,0,0,0,0,0] 6).sum =
        ([0,1,0,0,0,0,8,0,1,0,0,0,0,0] : List Nat).sum :=
  kalah_sowing_stores 0 [0,1,0,0,0,0,8,0,1,0,0,0,0,0] 6 (by decide)
    (by decide) (by decide) (by decide)

/-! ### Claim C3 — counting-game capture scenario -/

/-- Counterexample to C3 as frozen: on the board the claim describes
(house 3 holding 1 seed, house 9 holding 4 seeds, all others empty),
player 0 sowing from house 3 triggers no capture at all — the seed stays
in house 4, house 9 keeps its 4 seeds, and pit 6 (the claim's alleged
player-0 store) stays 0; exactly as the in-repository test
`DoNotCaptureWhenOppositeHouseIsEmptyTest` asserts for this board. -/
theorem kalah_capture_cex :
    (DoApplyAction 0 [0,0,0,1,0,0,0,0,0,4,0,0,0,0] 3).getD 4 0 = 1 ∧
      (DoApplyAction 0 [0,0,0,1,0,0,0,0,0,4,0,0,0,0] 3).getD 9 0 = 4 ∧
      (DoApplyAction 0 [0,0,0,1,0,0,0,0,0,4,0,0,0,0] 3).getD 6 0 = 0 ∧
      (DoApplyAction 0 [0,0,0,1,0,0,0,0,0,4,0,0,0,0] 3).getD 3 0 = 0 := by
  decide

/-- C3 (amended): with the layout the code actually uses (player-0 houses
1–6 with store 7, player-1 houses 8–13 with store 0), the capture board is
house 3 = 1 and house 10 = 4: house 3 is the unique legal move for player
0, sowing lands in empty house 4 whose opposite house 10 holds 4 seeds,
and the capture empties houses 3, 4 and 10 while the player-0 store
(pit 7) gains 5 = 1 sown + 4 captured. -/
theorem kalah_capture_amended :
    LegalActions 0 [0,0,0,1,0,0,0,0,0,0,4,0,0,0] = [3] ∧
      DoApplyAction 0 [0,0,0,1,0,0,0,0,0,0,4,0,0,0] 3 =
        [0,0,0,0,0,0,0,5,0,0,0,0,0,0] := by
  decide

end Kalah

namespace TwoZeroFourEight

/-! ### Claim C1 — undo inverts apply -/

/-- C1: from any state satisfying the reachability invariant, applying a
legal action and then undoing it for the same player and action restores
the board contents, the current player, the move-without-progress counter,
and the turn-history stack length exactly. -/
theorem undo_inverts_apply (s : TwoZeroFourEightState) (a : Nat)
    (hInv : Inv s) (ha : a ∈ LegalActions s) :
    (UndoAction (DoApplyAction s a) (CurrentPlayer s) a).board = s.board ∧
      (UndoAction (DoApplyAction s a) (CurrentPlayer s) a).current_player =
        s.current_player ∧
      (UndoAction (DoApplyAction s a)
          (CurrentPlayer s) a).moves_without_capture =
        s.moves_without_capture ∧
      (UndoAction (DoApplyAction s a)
          (CurrentPlayer s) a).turn_history_info.length =
        s.turn_history_info.length := by
  obtain ⟨hcnt, hblen⟩ := hInv
  obtain ⟨hterm, hcur⟩ := mem_LegalActions ha
  have hcp : CurrentPlayer s = s.current_player := by
    unfold CurrentPlayer
    rw [hterm]
    simp
  rw [hcp]
  by_cases hch : (s.current_player == kChancePlayerId) = true
  · -- chance node: a tile placement is undone by emptying the cell again
    obtain ⟨rc, hrc, hid⟩ := mem_currentLegalMoves_chance hch hcur
    obtain ⟨hr, hc, hempty⟩ := mem_AvailableCells.mp hrc
    have hdr : (SpielActionToChanceAction s a).row = rc.1 := by
      rcases hid with hid | hid <;> subst hid <;> rw [chance_dec_enc s _ hc]
    have hdc : (SpielActionToChanceAction s a).column = rc.2 := by
      rcases hid with hid | hid <;> subst hid <;> rw [chance_dec_enc s _ hc]
    rw [DoApplyAction_chance_eq hch]
    rw [UndoAction_chance_eq (applyChance s a) s.current_player a
      ⟨a, kChancePlayerId, 0, 0⟩ s.turn_history_info rfl hch]
    refine ⟨?_, (beq_iff_eq.mp hch).symm, rfl, rfl⟩
    show (s.board.set
        ((SpielActionToChanceAction s a).row * s.columns +
          (SpielActionToChanceAction s a).column)
        (if (SpielActionToChanceAction s a).is_four then 4 else 2)).set
        ((SpielActionToChanceAction s a).row * s.columns +
          (SpielActionToChanceAction s a).column) 0 = s.board
    rw [List.set_set, hdr, hdc]
    have hempty' : s.board.getD (rc.1 * s.columns + rc.2) 0 = 0 := hempty
    rw [← hempty']
    exact set_getD_self s.board _ (by rw [hblen]; exact flat_lt hr hc) 0
  · -- player node
    have hpb : (s.current_player == kChancePlayerId) = false := by
      cases hx : (s.current_player == kChancePlayerId)
      · rfl
      · exact absurd hx hch
    obtain ⟨m, hmm, hae⟩ := mem_currentLegalMoves_player hpb hcur
    have hall : m ∈ allCheckersMoves s := by
      rcases hmm with h | h
      · exact (mem_CaptureMoves.mp h).1
      · exact (mem_NormalMoves.mp h).1
    obtain ⟨hrb, hcb, hdb, htb⟩ := mem_allCheckersMoves.mp hall
    have hdecm : SpielActionToCheckersAction s a = m := by
      rw [hae]
      exact checkers_dec_enc s m hcb hdb htb
    have hoI : m.row * s.columns + m.column < s.board.length := by
      rw [hblen]
      exact flat_lt hrb hcb
    rcases hmm with hcap | hnorm
    · -- capture move
      obtain ⟨_, hmt1, hok⟩ := mem_CaptureMoves.mp hcap
      obtain ⟨howner, mr, mc, er, ec, hs1, hs2, hmid, hdst⟩ :=
        captureOk_elim hok
      have hmt0 : (m.move_type == 0) = false := by simp [hmt1]
      obtain ⟨hmrb, hmcb⟩ := shiftPos_bounds hrb hcb hs1
      obtain ⟨herb, hecb⟩ := shiftPos_bounds hrb hcb hs2
      have hrow1 := shiftPos_row hs1
      have hrow2 := shiftPos_row hs2
      have hmro : mr ≠ m.row := by omega
      have hero : er ≠ m.row := by omega
      have hmre : mr ≠ er := by omega
      have hmIo : mr * s.columns + mc ≠ m.row * s.columns + m.column :=
        flat_ne_of_row_ne hmcb hcb hmro
      have hdIo : er * s.columns + ec ≠ m.row * s.columns + m.column :=
        flat_ne_of_row_ne hecb hcb hero
      have hmId : mr * s.columns + mc ≠ er * s.columns + ec :=
        flat_ne_of_row_ne hmcb hecb hmre
      have hmI : mr * s.columns + mc < s.board.length := by
        rw [hblen]
        exact flat_lt hmrb hmcb
      have hdI : er * s.columns + ec < s.board.length := by
        rw [hblen]
        exact flat_lt herb hecb
      have hvo : s.board.getD (m.row * s.columns + m.column) 0 =
          makePiece s.current_player
            (pieceTypeOf (BoardAt s m.row m.column)) :=
        (makePiece_pieceTypeOf howner).symm
      have hvm : s.board.getD (mr * s.columns + mc) 0 =
          makePiece (opponentOf s.current_player)
            (pieceTypeOf (BoardAt s mr mc)) :=
        (makePiece_pieceTypeOf hmid).symm
      have hvd : s.board.getD (er * s.columns + ec) 0 = 0 := hdst
      rw [DoApplyAction_capture_eq hpb hdecm hmt0 hs1 hs2]
      unfold applyCapture
      split
      · rw [UndoAction_capture_eq
            ({ captureMidState s a m mr mc er ec with
              multiple_jump_piece := ((er * s.columns + ec : Nat) : Int) })
            s.current_player a m mr mc er ec
            ⟨a, s.current_player, pieceTypeOf (BoardAt s mr mc),
              pieceTypeOf (BoardAt s m.row m.column)⟩
            s.turn_history_info rfl hpb hdecm hmt0 hs1 hs2]
        refine ⟨?_, rfl, hcnt.symm, rfl⟩
        show (((((s.board.set (m.row * s.columns + m.column) kEmptyCell).set
            (mr * s.columns + mc) kEmptyCell).set (er * s.columns + ec)
            (CrownStateIfLastRowReached s er (BoardAt s m.row m.column))).set
            (er * s.columns + ec) kEmptyCell).set (mr * s.columns + mc)
            (makePiece (opponentOf s.current_player)
              (pieceTypeOf (BoardAt s mr mc)))).set
            (m.row * s.columns + m.column)
            (makePiece s.current_player
              (pieceTypeOf (BoardAt s m.row m.column))) = s.board
        exact restore_capture_board s.board (m.row * s.columns + m.column)
          (mr * s.columns + mc) (er * s.columns + ec) _ _ _ hoI hmI hdI
          hmIo hdIo hmId hvo hvm hvd
      · rw [UndoAction_capture_eq
            ({ captureMidState s a m mr mc er ec with
              current_player := opponentOf s.current_player,
              multiple_jump_piece := kNoMultipleJumpsPossible })
            s.current_player a m mr mc er ec
            ⟨a, s.current_player, pieceTypeOf (BoardAt s mr mc),
              pieceTypeOf (BoardAt s m.row m.column)⟩
            s.turn_history_info rfl hpb hdecm hmt0 hs1 hs2]
        refine ⟨?_, rfl, hcnt.symm, rfl⟩
        show (((((s.board.set (m.row * s.columns + m.column) kEmptyCell).set
            (mr * s.columns + mc) kEmptyCell).set (er * s.columns + ec)
            (CrownStateIfLastRowReached s er (BoardAt s m.row m.column))).set
            (er * s.columns + ec) kEmptyCell).set (mr * s.columns + mc)
            (makePiece (opponentOf s.current_player)
              (pieceTypeOf (BoardAt s mr mc)))).set
            (m.row * s.columns + m.column)
            (makePiece s.current_player
              (pieceTypeOf (BoardAt s m.row m.column))) = s.board
        exact restore_capture_board s.board (m.row * s.columns + m.column)
          (mr * s.columns + mc) (er * s.columns + ec) _ _ _ hoI hmI hdI
          hmIo hdIo hmId hvo hvm hvd
    · -- normal move
      obtain ⟨_, hmt00, hok⟩ := mem_NormalMoves.mp hnorm
      obtain ⟨howner, er, ec, hs1, hdst⟩ := normalOk_elim hok
      have hmt0 : (m.move_type == 0) = true := by simp [hmt00]
      obtain ⟨herb, hecb⟩ := shiftPos_bounds hrb hcb hs1
      have hrow1 := shiftPos_row hs1
      have hero : er ≠ m.row := by omega
      have hdIo : er * s.columns + ec ≠ m.row * s.columns + m.column :=
        flat_ne_of_row_ne hecb hcb hero
      have hdI : er * s.columns + ec < s.board.length := by
        rw [hblen]
        exact flat_lt herb hecb
      have hvo : s.board.getD (m.row * s.columns + m.column) 0 =
          makePiece s.current_player
            (pieceTypeOf (BoardAt s m.row m.column)) :=
        (makePiece_pieceTypeOf howner).symm
      have hvd : s.board.getD (er * s.columns + ec) 0 = 0 := hdst
      rw [DoApplyAction_normal_eq hpb hdecm hmt0 hs1]
      rw [UndoAction_normal_eq (applyNormal s a m er ec) s.current_player a
        m er ec
        ⟨a, s.current_player, 0, pieceTypeOf (BoardAt s m.row m.column)⟩
        s.turn_history_info rfl hpb hdecm hmt0 hs1]
      refine ⟨?_, rfl, by show s.moves_without_capture + 1 - 1 = _; omega, rfl⟩
      show (((s.board.set (m.row * s.columns + m.column) kEmptyCell).set
          (er * s.columns + ec)
          (CrownStateIfLastRowReached s er (BoardAt s m.row m.column))).set
          (er * s.columns + ec) kEmptyCell).set
          (m.row * s.columns + m.column)
          (makePiece s.current_player
            (pieceTypeOf (BoardAt s m.row m.column))) = s.board
      exact restore_normal_board s.board (m.row * s.columns + m.column)
        (er * s.columns + ec) _ _ hoI hdI hdIo hvo hvd

/-- The invariant holds at every freshly constructed state. -/
theorem Inv_initial (rows columns : Nat) :
    Inv (NewInitialState rows columns) := by
  constructor
  · rfl
  · simp [NewInitialState]

/-- The invariant is preserved by applying any legal action, which
justifies using `Inv` as the reachable-state abstraction. -/
theorem Inv_preserved (s : TwoZeroFourEightState) (a : Nat)
    (hInv : Inv s) (ha : a ∈ LegalActions s) : Inv (DoApplyAction s a) := by
  obtain ⟨hcnt, hblen⟩ := hInv
  obtain ⟨hterm, hcur⟩ := mem_LegalActions ha
  by_cases hch : (s.current_player == kChancePlayerId) = true
  · rw [DoApplyAction_chance_eq hch]
    constructor
    · show s.moves_without_capture =
        histCounter (⟨a, kChancePlayerId, 0, 0⟩ :: s.turn_history_info)
      simp only [histCounter, beq_self_eq_true, if_true]
      exact hcnt
    · show (s.board.set
          ((SpielActionToChanceAction s a).row * s.columns +
            (SpielActionToChanceAction s a).column)
          (if (SpielActionToChanceAction s a).is_four then 4 else 2)).length =
        s.rows * s.columns
      simp [hblen]
  · have hpb : (s.current_player == kChancePlayerId) = false := by
      cases hx : (s.current_player == kChancePlayerId)
      · rfl
      · exact absurd hx hch
    obtain ⟨m, hmm, hae⟩ := mem_currentLegalMoves_player hpb hcur
    have hall : m ∈ allCheckersMoves s := by
      rcases hmm with h | h
      · exact (mem_CaptureMoves.mp h).1
      · exact (mem_NormalMoves.mp h).1
    obtain ⟨hrb, hcb, hdb, htb⟩ := mem_allCheckersMoves.mp hall
    have hdecm : SpielActionToCheckersAction s a = m := by
      rw [hae]
      exact checkers_dec_enc s m hcb hdb htb
    have hamod : a % 2 = m.move_type := by
      rw [hae]
      unfold CheckersActionToSpielAction
      omega
    rcases hmm with hcap | hnorm
    · obtain ⟨_, hmt1, hok⟩ := mem_CaptureMoves.mp hcap
      obtain ⟨_, mr, mc, er, ec, hs1, hs2, _, _⟩ := captureOk_elim hok
      have hmt0 : (m.move_type == 0) = false := by simp [hmt1]
      rw [DoApplyAction_capture_eq hpb hdecm hmt0 hs1 hs2]
      have hrec : recordIsCapture
          ⟨a, s.current_player, pieceTypeOf (BoardAt s mr mc),
            pieceTypeOf (BoardAt s m.row m.column)⟩ = true := by
        unfold recordIsCapture
        simp only [beq_iff_eq]
        omega
      have hhist : (0 : Nat) = histCounter
          (⟨a, s.current_player, pieceTypeOf (BoardAt s mr mc),
            pieceTypeOf (BoardAt s m.row m.column)⟩ ::
            s.turn_history_info) := by
        simp only [histCounter]
        dsimp only
        rw [hpb, hrec]
        simp
      have hblen3 : (((s.board.set (m.row * s.columns + m.column)
          kEmptyCell).set (mr * s.columns + mc) kEmptyCell).set
          (er * s.columns + ec)
          (CrownStateIfLastRowReached s er
            (BoardAt s m.row m.column))).length = s.rows * s.columns := by
        simp [hblen]
      unfold applyCapture
      split
      · exact ⟨hhist, hblen3⟩
      · exact ⟨hhist, hblen3⟩
    · obtain ⟨_, hmt00, hok⟩ := mem_NormalMoves.mp hnorm
      obtain ⟨_, er, ec, hs1, _⟩ := normalOk_elim hok
      have hmt0 : (m.move_type == 0) = true := by simp [hmt00]
      rw [DoApplyAction_normal_eq hpb hdecm hmt0 hs1]
      have hrec : recordIsCapture
          ⟨a, s.current_player, 0,
            pieceTypeOf (BoardAt s m.row m.column)⟩ = false := by
        unfold recordIsCapture
        simp only [beq_eq_false_iff_ne, ne_eq]
        omega
      constructor
      · show s.moves_without_capture + 1 = histCounter
          (⟨a, s.current_player, 0,
            pieceTypeOf (BoardAt s m.row m.column)⟩ ::
            s.turn_history_info)
        simp only [histCounter]
        dsimp only
        rw [hpb, hrec]
        simp only [Bool.false_eq_true, if_false]
        omega
      · show ((s.board.set (m.row * s.columns + m.column) kEmptyCell).set
            (er * s.columns + ec)
            (CrownStateIfLastRowReached s er
              (BoardAt s m.row m.column))).length = s.rows * s.columns
        simp [hblen]

/-- Witness for C1: the initial 2×2 state with the chance placement of a
2-tile at cell (0,0), and the capture position with its jump. -/
theorem undo_inverts_apply_witness :
    (UndoAction (DoApplyAction (NewInitialState 2 2) 0)
        (CurrentPlayer (NewInitialState 2 2)) 0).board =
      (NewInitialState 2 2).board ∧
      (UndoAction (DoApplyAction exampleChainState 7)
          (CurrentPlayer exampleChainState) 7).board =
        exampleChainState.board :=
  ⟨(undo_inverts_apply (NewInitialState 2 2) 0 (by decide) (by decide)).1,
    (undo_inverts_apply exampleChainState 7 (by decide) (by decide)).1⟩

end TwoZeroFourEight
